import Mathlib

/-!
Verification of the protocol-converter engine: a shallow embedding of the
matching, variable-extraction, path-resolution and rendering code
(`src/utils/yaml_path.py`, `src/core/matcher.py`, `src/core/converter.py`,
`src/core/renderer.py`, `src/core/schema_matcher.py`,
`src/core/field_mapper.py`, `src/models/types.py`) together with proofs of
the behavioural properties stated in the specification.

JSON/YAML trees are modelled by the inductive type `JValue`; Python dicts
become insertion-ordered association lists (lookup returns the first
binding, assignment replaces in place or appends, exactly as Python dicts
behave).  In-place mutation in the Python code is modelled by explicit
state passing: a mutating method becomes a function returning the new
value (and, where the code mutates a context object, the new context).
Python exceptions become `Except String`.
-/

namespace ProtoConv

/-- JSON-like tree values (the `Tree` data model): null, booleans, integers,
strings, sequences and ordered string-keyed maps.  (Float scalars do not
occur in any property checked here; numeric scalars are modelled by `Int`.) -/
inductive JValue where
  | null
  | bool (b : Bool)
  | int (n : Int)
  | str (s : String)
  | arr (items : List JValue)
  | obj (fields : List (String × JValue))
deriving Repr

/-- Python `dict[key]` / `key in dict`: first binding with the given key. -/
def lookupField : List (String × JValue) → String → Option JValue
  | [], _ => none
  | (k, v) :: rest, key => if k = key then some v else lookupField rest key

/-- Python `dict[key] = value`: replace the existing binding in place
(keeping its position), else append a new binding at the end. -/
def setField : List (String × JValue) → String → JValue → List (String × JValue)
  | [], key, v => [(key, v)]
  | (k, w) :: rest, key, v =>
    if k = key then (k, v) :: rest else (k, w) :: setField rest key v

/-! ## PathLanguage: embedding of `src/utils/yaml_path.py` -/

/-- A parsed path segment (`PathSegment` in `yaml_path.py`): an object key
(possibly optional, i.e. written with a trailing `?`), an array index
(possibly negative) or the array wildcard `[*]`. -/
inductive PathSegment where
  | objectKey (key : String) (isOptional : Bool)
  | arrayIndex (i : Int)
  | arrayWildcard
deriving Repr, DecidableEq

/-- Python sequence index normalisation: a negative index counts from the
end (`index = value if value >= 0 else len + value` in `get_value`). -/
def normIndex (i : Int) (len : Nat) : Int :=
  if 0 ≤ i then i else (len : Int) + i

mutual

/-- `YamlPath.get_value` (`yaml_path.py` lines 75-133), as a function of the
parsed segment list: object keys require a dict and a present key (a missing
optional key yields `null`), array indices require a list and an in-bounds
index after normalising negatives by `len + i`, and a wildcard over a list
maps the remaining path over every element (or returns the list itself when
it is the final segment). -/
def getValue : List PathSegment → JValue → Except String JValue
  | [], current => .ok current
  | .objectKey key opt :: rest, current =>
    match current with
    | .obj fields =>
      match lookupField fields key with
      | some v => getValue rest v
      | none => if opt then .ok .null else .error ("Key not found: " ++ key)
    | _ => .error "Expected dict"
  | .arrayIndex i :: rest, current =>
    match current with
    | .arr items =>
      if 0 ≤ normIndex i items.length
          ∧ normIndex i items.length < (items.length : Int) then
        getValue rest (items.getD (normIndex i items.length).toNat .null)
      else .error "Array index out of bounds"
    | _ => .error "Expected list"
  | .arrayWildcard :: rest, current =>
    match current with
    | .arr items =>
      if rest.isEmpty then .ok (.arr items)
      else (getValueList rest items).map JValue.arr
    | _ => .error "Expected list"
termination_by segs v => (segs.length, sizeOf v)

/-- The list comprehension `[remaining_path.get_value(item) for item in current]`
in the wildcard branch of `get_value`; the first `PathError` propagates. -/
def getValueList : List PathSegment → List JValue → Except String (List JValue)
  | _, [] => .ok []
  | segs, v :: vs =>
    match getValue segs v with
    | .ok r =>
      match getValueList segs vs with
      | .ok rs => .ok (r :: rs)
      | .error e => .error e
    | .error e => .error e
termination_by segs vs => (segs.length, sizeOf vs)

end

/-- `YamlPath.exists` (`yaml_path.py` lines 202-216): `get_value` succeeds. -/
def existsPath (segs : List PathSegment) (data : JValue) : Bool :=
  match getValue segs data with
  | .ok _ => true
  | .error _ => false

/-- Whether the next segment makes `set_value` create a list (`[]`) rather
than a dict (`{}`) as the missing intermediate structure
(`next_segment.type in ['array_index', 'array_wildcard']`). -/
def isIndexLike : PathSegment → Bool
  | .arrayIndex _ => true
  | .arrayWildcard => true
  | .objectKey _ _ => false

/-- The `while len(current) <= segment.value: current.append(None)` padding
in `set_value`: extend the list with nulls up to index `i` (a no-op for a
negative `i` or an index already in range). -/
def padTo (items : List JValue) (i : Int) : List JValue :=
  items ++ List.replicate (i + 1 - (items.length : Int)).toNat JValue.null

/-- The final-segment assignment of `YamlPath.set_value` (`yaml_path.py`
lines 185-200): an object key assigns into a dict; an array index pads with
nulls then assigns under Python indexing (for a non-negative index the pad
guarantees the index is in range; a negative index counts from the end of
the padded list and raises `IndexError` when out of range); a final
wildcard segment matches no branch of the code and returns with no write
performed. -/
def setFinal : PathSegment → JValue → JValue → Except String JValue
  | .objectKey key _, current, value =>
    match current with
    | .obj fields => .ok (.obj (setField fields key value))
    | _ => .error "Expected dict at parent segment"
  | .arrayIndex i, current, value =>
    match current with
    | .arr items =>
      let items1 := padTo items i
      if 0 ≤ normIndex i items1.length
          ∧ normIndex i items1.length < (items1.length : Int) then
        .ok (.arr (items1.set (normIndex i items1.length).toNat value))
      else .error "IndexError"
    | _ => .error "Expected list at parent segment"
  | .arrayWildcard, current, _ => .ok current

/-- The `if current[i] is None: create intermediate structure` step of the
`set_value` navigation loop: a `null` slot is replaced by a fresh container,
any other value is descended into unchanged. -/
def replaceNullSlot (c fresh : JValue) : JValue :=
  match c with
  | .null => fresh
  | _ => c

/-- `YamlPath.set_value` (`yaml_path.py` lines 135-200), state-passing form:
the navigation loop over `segments[:-1]` descends through the tree, creating
missing intermediate containers (and replacing `None` slots), and the final
segment assigns.  A wildcard navigation segment matches no branch of the
loop body, so the cursor is left unchanged and the segment is skipped.  On
success the updated tree is returned; a raised exception is returned as
`.error` (the partially-created intermediates of a failing call are not
observed by any caller in the repository). -/
def setValue : List PathSegment → JValue → JValue → Except String JValue
  | [], _, _ => .error "Cannot set value on empty path"
  | [seg], current, value => setFinal seg current value
  | seg :: next :: rest, current, value =>
    match seg with
    | .objectKey key _ =>
      match current with
      | .obj fields =>
        let child := match lookupField fields key with
          | some c => c
          | none => if isIndexLike next then .arr [] else .obj []
        match setValue (next :: rest) child value with
        | .ok child2 => .ok (.obj (setField fields key child2))
        | .error e => .error e
      | _ => .error "Expected dict"
    | .arrayIndex i =>
      match current with
      | .arr items =>
        let items1 := padTo items i
        if 0 ≤ normIndex i items1.length
            ∧ normIndex i items1.length < (items1.length : Int) then
          let c1 := replaceNullSlot
            (items1.getD (normIndex i items1.length).toNat .null)
            (if isIndexLike next then JValue.arr [] else JValue.obj [])
          match setValue (next :: rest) c1 value with
          | .ok c2 => .ok (.arr (items1.set (normIndex i items1.length).toNat c2))
          | .error e => .error e
        else .error "IndexError"
      | _ => .error "Expected list"
    | .arrayWildcard => setValue (next :: rest) current value

/-- A path segment that is neither optional nor a wildcard: a required
object key or an array index. -/
def plainSegment : PathSegment → Bool
  | .objectKey _ opt => !opt
  | .arrayIndex _ => true
  | .arrayWildcard => false

/-! ## Python string helpers

Literal braces inside Lean string literals are written with the escapes
`\x7b` (`{`) and `\x7d` (`}`). -/

/-- Python `str.strip()` whitespace set: the characters for which
`str.isspace()` holds (CPython's Unicode whitespace table) - the ASCII
whitespace characters (tab, newline, vertical tab, form feed, carriage
return, space), the file/group/record/unit separators `\x1c`-`\x1f`,
next line `\x85`, no-break space `\xa0`, ogham space mark `\u1680`, the
typographic spaces `\u2000`-`\u200a`, line separator `\u2028`, paragraph
separator `\u2029`, narrow no-break space `\u202f`, medium mathematical
space `\u205f` and ideographic space `\u3000`. -/
def pyIsSpace (c : Char) : Bool :=
  c = ' ' || c = '\t' || c = '\n' || c = '\r' || c = '\x0b' || c = '\x0c'
    || c = '\x1c' || c = '\x1d' || c = '\x1e' || c = '\x1f'
    || c = '\x85' || c = '\xa0' || c = '\u1680'
    || c = '\u2000' || c = '\u2001' || c = '\u2002' || c = '\u2003'
    || c = '\u2004' || c = '\u2005' || c = '\u2006' || c = '\u2007'
    || c = '\u2008' || c = '\u2009' || c = '\u200a'
    || c = '\u2028' || c = '\u2029' || c = '\u202f' || c = '\u205f'
    || c = '\u3000'

/-- Python `str.strip()` on a character list. -/
def stripChars (cs : List Char) : List Char :=
  ((cs.dropWhile pyIsSpace).reverse.dropWhile pyIsSpace).reverse

/-- Python `str.strip()`. -/
def pyStrip (s : String) : String := String.mk (stripChars s.data)

/-- Character-list prefix test. -/
def chStartsWith : List Char → List Char → Bool
  | _, [] => true
  | [], _ :: _ => false
  | c :: cs, p :: ps => c = p && chStartsWith cs ps

/-- Python `str.startswith`. -/
def pyStartsWith (s pre : String) : Bool := chStartsWith s.data pre.data

/-- Python `str.endswith`. -/
def pyEndsWith (s suf : String) : Bool :=
  chStartsWith s.data.reverse suf.data.reverse

/-- Substring search on character lists (Python `sub in s`). -/
def chContainsSub : List Char → List Char → Bool
  | cs, sub =>
    if chStartsWith cs sub then true
    else
      match cs with
      | [] => false
      | _ :: rest => chContainsSub rest sub

/-- Python `sub in s` on strings. -/
def pyContainsSub (s sub : String) : Bool := chContainsSub s.data sub.data

/-- Python `str.lower()` (ASCII case folding, as used for field names). -/
def pyLower (s : String) : String := String.mk (s.data.map Char.toLower)

/-- Python `str.split(sep)` (single-character separator): splits at every
occurrence; the empty string yields `[""]`. -/
def pySplitChars (sep : Char) : List Char → List (List Char)
  | [] => [[]]
  | c :: cs =>
    if c = sep then [] :: pySplitChars sep cs
    else
      match pySplitChars sep cs with
      | head :: tail => (c :: head) :: tail
      | [] => [[c]]

/-- Python `str.split(sep)` on strings. -/
def pySplit (s : String) (sep : Char) : List String :=
  (pySplitChars sep s.data).map String.mk

mutual

/-- Python `repr` of a tree value (string quoting is modelled without
escape sequences, which never arise in the compared data). -/
def pyRepr : JValue → String
  | .null => "None"
  | .bool true => "True"
  | .bool false => "False"
  | .int n => toString n
  | .str s => "'" ++ s ++ "'"
  | .arr items => "[" ++ pyReprList items ++ "]"
  | .obj fields => "\x7b" ++ pyReprFields fields ++ "\x7d"

/-- Comma-joined `repr`s of list elements. -/
def pyReprList : List JValue → String
  | [] => ""
  | [v] => pyRepr v
  | v :: rest => pyRepr v ++ ", " ++ pyReprList rest

/-- Comma-joined `repr`s of dict entries. -/
def pyReprFields : List (String × JValue) → String
  | [] => ""
  | [(k, v)] => "'" ++ k ++ "': " ++ pyRepr v
  | (k, v) :: rest => "'" ++ k ++ "': " ++ pyRepr v ++ ", " ++ pyReprFields rest

end

/-- Python `str()` of a tree value: a string is itself, containers and
scalars render as their `repr`-based forms. -/
def pyStr : JValue → String
  | .str s => s
  | v => pyRepr v

/-! ## StructuralMatcher: embedding of `src/core/matcher.py` -/

/-- The skip test of `matcher.py`'s `_recursive_match`: a template leaf is
skipped when its stripped text starts with a variable marker or a block
marker. -/
def isSkippableExpr : JValue → Bool
  | .str s =>
    pyStartsWith (pyStrip s) "\x7b\x7b" || pyStartsWith (pyStrip s) "\x7b%"
  | _ => false

/-- A Jinja2 comment leaf (`_clean_template_for_matching`): stripped text
starting with the comment-open marker and ending with the comment-close
marker. -/
def isCommentLeaf (s : String) : Bool :=
  pyStartsWith (pyStrip s) "\x7b#" && pyEndsWith (pyStrip s) "#\x7d"

mutual

/-- `ProtocolMatcher._clean_template_for_matching` (`matcher.py` lines
43-82): comment leaves are removed, everything else is kept; cleaning maps
over dicts and lists, dropping entries that clean to nothing. -/
def cleanTemplateForMatching : JValue → Option JValue
  | .obj fields => some (.obj (cleanFields fields))
  | .arr items => some (.arr (cleanItems items))
  | .str s => if isCommentLeaf s then none else some (.str s)
  | v => some v

/-- Cleaning of dict entries: entries whose value cleans to `None` are
dropped. -/
def cleanFields : List (String × JValue) → List (String × JValue)
  | [] => []
  | (k, v) :: rest =>
    match cleanTemplateForMatching v with
    | some v2 => (k, v2) :: cleanFields rest
    | none => cleanFields rest

/-- Cleaning of list items: items that clean to `None` are dropped. -/
def cleanItems : List JValue → List JValue
  | [] => []
  | v :: rest =>
    match cleanTemplateForMatching v with
    | some v2 => v2 :: cleanItems rest
    | none => cleanItems rest

end

/-- The optional-field keyword set of `ProtocolMatcher._is_optional_field`. -/
def optionalKeywords : List String :=
  ["context", "metadata", "session_info", "processing"]

/-- `ProtocolMatcher._is_optional_field` (`matcher.py` lines 98-119): a key
is optional when its lower-cased name contains one of the keywords, or the
template value is a string containing `default`. -/
def isOptionalField (fieldName : String) (templateValue : JValue) : Bool :=
  optionalKeywords.any (fun kw => pyContainsSub (pyLower fieldName) kw)
  || (match templateValue with
      | .str s => pyContainsSub s "default"
      | _ => false)

mutual

/-- `ProtocolMatcher._recursive_match` (`matcher.py` lines 121-184): a dict
template requires a dict datum and checks every entry; a list template
requires a list datum, an empty template list requires empty data, and
otherwise only the first elements are compared when both are nonempty; a
string template is skipped when it is an expression and otherwise compared
by `str()` equality; any other template node matches. -/
def recursiveMatch : JValue → JValue → Bool
  | .obj tfields, data =>
    match data with
    | .obj dfields => matchFields tfields dfields
    | _ => false
  | .arr titems, data =>
    match data with
    | .arr ditems =>
      match titems with
      | [] => ditems.isEmpty
      | t0 :: _ =>
        match ditems with
        | [] => true
        | d0 :: _ => recursiveMatch t0 d0
    | _ => false
  | .str s, data =>
    if isSkippableExpr (.str s) then true else pyStr (.str s) == pyStr data
  | _, _ => true

/-- The entry loop of `_recursive_match` over the template dict: expression
values are skipped, missing keys pass only for optional fields, and present
keys recurse. -/
def matchFields : List (String × JValue) → List (String × JValue) → Bool
  | [], _ => true
  | (k, tv) :: rest, dfields =>
    if isSkippableExpr tv then matchFields rest dfields
    else
      match lookupField dfields k with
      | none =>
        if isOptionalField k tv then matchFields rest dfields else false
      | some dv => recursiveMatch tv dv && matchFields rest dfields

end

/-- `ProtocolMatcher._is_match` (`matcher.py` lines 84-96): clean the
template, then match recursively.  (Cleaning a dict template never yields
`None`; the `getD` default mirrors Python's `None`, which
`_recursive_match` accepts.) -/
def isMatchMatcher (template data : JValue) : Bool :=
  recursiveMatch ((cleanTemplateForMatching template).getD JValue.null) data

/-- The skip test of `converter.py`'s `ProtocolMatcher._is_match`: the
stripped template value starts with the variable-open marker and ends with
the variable-close marker. -/
def isConvSkippable : JValue → Bool
  | .str s =>
    pyStartsWith (pyStrip s) "\x7b\x7b" && pyEndsWith (pyStrip s) "\x7d\x7d"
  | _ => false

/-- `ProtocolMatcher._is_match` of `converter.py` (lines 121-153): every
non-expression template key must be present in the data; dict values
recurse when both sides are dicts; for list values with both sides nonempty
only first elements that are both dicts recurse; scalar values are never
compared. -/
def isMatchConverter : List (String × JValue) → List (String × JValue) → Bool
  | [], _ => true
  | (k, tv) :: rest, dfields =>
    if isConvSkippable tv then isMatchConverter rest dfields
    else
      match lookupField dfields k with
      | none => false
      | some dv =>
        (match tv, dv with
          | .obj tf2, .obj df2 => isMatchConverter tf2 df2
          | .arr (t0 :: _), .arr (d0 :: _) =>
            (match t0, d0 with
              | .obj tf0, .obj df0 => isMatchConverter tf0 df0
              | _, _ => true)
          | _, _ => true)
        && isMatchConverter rest dfields

/-! ## Protocol registry and conversion flow: `src/core/converter.py` -/

/-- `ArrayMarker` (`converter.py` lines 15-20 / `types.py` lines 9-14): a
dynamic-array annotation of a template. -/
structure ArrayMarker where
  field_path : String
  is_dynamic : Bool
  template_item : List (String × JValue)
deriving Repr

/-- `ProtocolTemplate` (`converter.py` lines 23-31). -/
structure ProtocolTemplate where
  protocol_id : String
  protocol_family : String
  template_content : List (String × JValue)
  «variables» : List String
  special_variables : List String
  array_markers : List ArrayMarker
deriving Repr

/-- `ConversionResult` (`converter.py` lines 34-41). -/
structure ConversionResult where
  success : Bool
  result : Option JValue := none
  matched_protocol : Option String := none
  «variables» : Option (List (String × JValue)) := none
  error : Option String := none
deriving Repr

/-- `ProtocolMatcher.add_protocol`: assignment into the id-keyed registry
dict — replace in place when the id exists, else append. -/
def addProtocol : List ProtocolTemplate → ProtocolTemplate → List ProtocolTemplate
  | [], p => [p]
  | q :: rest, p =>
    if q.protocol_id = p.protocol_id then p :: rest else q :: addProtocol rest p

/-- The `family_protocols` dict comprehension of `match_protocol`
(`converter.py` lines 110-112): registration-order filter by family. -/
def familyProtocols (protocols : List ProtocolTemplate) (family : String) :
    List ProtocolTemplate :=
  protocols.filter (fun p => p.protocol_family = family)

/-- The matching loop of `match_protocol` (`converter.py` lines 114-119):
return the id of the first template whose content matches. -/
def firstMatchId : List ProtocolTemplate → List (String × JValue) → Option String
  | [], _ => none
  | p :: rest, d =>
    if isMatchConverter p.template_content d then some p.protocol_id
    else firstMatchId rest d

/-- `ProtocolMatcher.match_protocol` (`converter.py` lines 101-119). -/
def matchProtocol (protocols : List ProtocolTemplate) (family : String)
    (jsonData : List (String × JValue)) : Option String :=
  firstMatchId (familyProtocols protocols family) jsonData

/-- Registry lookup `self.matcher.protocols.get(...)` / `[...]`. -/
def getProtocol : List ProtocolTemplate → String → Option ProtocolTemplate
  | [], _ => none
  | p :: rest, pid => if p.protocol_id = pid then some p else getProtocol rest pid

/-- `ProtocolConverter._find_target_protocol` (`converter.py` lines
574-581): take the last `-`-separated component of the source id, glue it
onto the target family, and look the result up in the registry. -/
def findTargetProtocol (protocols : List ProtocolTemplate)
    (targetProtocolFamily sourceProtocolId : String) : Option ProtocolTemplate :=
  let sourceNumber := (pySplit sourceProtocolId '-').getLastD ""
  getProtocol protocols (targetProtocolFamily ++ "-" ++ sourceNumber)

/-- `ProtocolConverter.convert` (`converter.py` lines 473-533).  The
variable-extraction and rendering components held by the converter object
(`self.extractor`, `self.renderer`) are passed as function parameters;
the control flow (match, registry lookups, target-id derivation, failure
results and their messages) is the embedded code.  A missing matched id in
the registry cannot occur (the id was produced from the registry) and maps
to the generic exception branch. -/
def convert
    (extractVars : List (String × JValue) → List (String × JValue) →
      List ArrayMarker → List (String × JValue))
    (render : List (String × JValue) → List (String × JValue) → String →
      String → List (String × JValue) → List ArrayMarker → JValue)
    (protocols : List ProtocolTemplate)
    (sourceProtocol targetProtocol : String)
    (sourceJson : List (String × JValue)) : ConversionResult :=
  match matchProtocol protocols sourceProtocol sourceJson with
  | none =>
    { success := false,
      error := some ("No matching protocol found for " ++ sourceProtocol) }
  | some matchedProtocolId =>
    match getProtocol protocols matchedProtocolId with
    | none => { success := false, error := some matchedProtocolId }
    | some sourceTemplate =>
      let extracted := extractVars sourceTemplate.template_content sourceJson
        sourceTemplate.array_markers
      match findTargetProtocol protocols targetProtocol matchedProtocolId with
      | none =>
        { success := false,
          error := some ("No corresponding target protocol found for "
            ++ matchedProtocolId) }
      | some targetTemplate =>
        { success := true,
          result := some (render targetTemplate.template_content extracted
            sourceProtocol targetProtocol sourceJson
            targetTemplate.array_markers),
          matched_protocol := some matchedProtocolId,
          «variables» := some extracted }

/-! ## Predicates formalising the hypotheses of the match-skip property -/

mutual

/-- Every leaf of the template is an expression string of the shape
`\x7b\x7b ... \x7d\x7d` (nested dicts allowed, nothing else). -/
def allExprLeaves : JValue → Bool
  | .str s => isConvSkippable (.str s)
  | .obj fields => allExprLeavesFields fields
  | _ => false

/-- `allExprLeaves` over the entries of a dict. -/
def allExprLeavesFields : List (String × JValue) → Bool
  | [] => true
  | (_, v) :: rest => allExprLeaves v && allExprLeavesFields rest

end

mutual

/-- The data object has the same key set as the template at every level:
equal key sets, and wherever the template holds a nested dict the data
holds a nested dict with the same key structure. -/
def sameKeyStructure : JValue → JValue → Bool
  | .obj tf, .obj df =>
    (tf.map Prod.fst).all (fun k => (df.map Prod.fst).contains k)
    && (df.map Prod.fst).all (fun k => (tf.map Prod.fst).contains k)
    && alignedFields tf df
  | _, _ => false

/-- For every template entry holding a dict, the datum at the same key is a
dict with the same key structure. -/
def alignedFields : List (String × JValue) → List (String × JValue) → Bool
  | [], _ => true
  | (k, tv) :: rest, df =>
    (match tv with
      | .obj _ =>
        (match lookupField df k with
          | some dv => sameKeyStructure tv dv
          | none => false)
      | _ => true)
    && alignedFields rest df

end

/-! ## ConversionContext: embedding of `src/models/types.py` -/

/-- `ConversionContext` (`types.py` lines 38-71), with the dataclass field
types and defaults; `debug_info`'s `None` default is normalised to the
empty dict by `__post_init__` and is modelled as a plain list. -/
structure ConversionContext where
  source_protocol : String
  target_protocol : String
  source_json : List (String × JValue)
  «variables» : List (String × JValue)
  array_path : Option String := none
  array_index : Option Int := none
  array_total : Option Int := none
  current_element : Option (List (String × JValue)) := none
  render_depth : Int := 0
  parent_path : Option String := none
  current_path : Option String := none
  source_protocol_id : Option String := none
  target_protocol_id : Option String := none
  protocol_family : Option String := none
  total_input_items : Int := 0
  processed_items : Int := 0
  is_last_item : Bool := false
  timestamp : Option String := none
  conversion_id : Option String := none
  debug_info : List (String × JValue) := []

/-- Python falsiness of an optional string (`not self.protocol_family`):
`None` or the empty string. -/
def optStrFalsy : Option String → Bool
  | none => true
  | some s => s.isEmpty

/-- The `_count_input_items` loop of `__post_init__`: the maximum list
length among the top-level values of `source_json`, folded over the
initial field value. -/
def countInputItems : List (String × JValue) → Int → Int
  | [], acc => acc
  | (_, v) :: rest, acc =>
    match v with
    | .arr items => countInputItems rest (max acc (items.length : Int))
    | _ => countInputItems rest acc

/-- `ConversionContext.__post_init__` (`types.py` lines 73-97), applied to
the freshly constructed record: default the protocol family from the
source protocol, recount `total_input_items`, fill in a generated timestamp
and conversion id when absent, and derive `is_last_item` from the array
position. -/
def postInit (c : ConversionContext) (genTimestamp genConversionId : String) :
    ConversionContext :=
  let c1 := if c.source_protocol ≠ "" && optStrFalsy c.protocol_family then
      { c with protocol_family := some c.source_protocol } else c
  let c2 := { c1 with
    total_input_items := countInputItems c1.source_json c1.total_input_items }
  let c3 := if optStrFalsy c2.timestamp then
      { c2 with timestamp := some genTimestamp } else c2
  let c4 := if optStrFalsy c3.conversion_id then
      { c3 with conversion_id := some ("conv_" ++ genConversionId) } else c3
  match c4.array_index, c4.array_total with
  | some i, some n => { c4 with is_last_item := i = n - 1 }
  | _, _ => c4

/-! ## TemplateRenderer: embedding of `src/core/renderer.py`

The regular-expression scans of `_render_string`, `_preprocess_template`
and `_fallback_render` are embedded as explicit character scanners; the
Jinja2 engine itself (an external library) is modelled on the fragment the
templates use — literal text and simple `\x7b\x7b name \x7d\x7d`
substitutions, where an unbound name renders as the empty string (the
default `Undefined`) and malformed syntax raises.  The scanners use a fuel
argument bounded by the input length; every match consumes at least one
character, so the fuel never runs out on the initial call. -/

/-- Generic lookup in a name-keyed table (Python `dict` of callables). -/
def lookupFn {α : Type} : List (String × α) → String → Option α
  | [], _ => none
  | (k, v) :: rest, key => if k = key then some v else lookupFn rest key

/-- The renderer object: the injected `converter_functions` table, the
`converters.functions` registry used by the fallback path, and the
generated timestamp / conversion-id values consumed by context
construction. -/
structure Renderer where
  converter_functions : List (String × (ConversionContext → JValue))
  fallback_functions : List (String × (ConversionContext → String))
  genTimestamp : String
  genConversionId : String

/-- Python regex `\w`: word characters (ASCII letters, digits, underscore). -/
def isWordChar (c : Char) : Bool := c.isAlphanum || c = '_'

/-- Skip `\s*`. -/
def dropSpaces (cs : List Char) : List Char := cs.dropWhile pyIsSpace

/-- Match the literal `\x7b\x7b` at the head. -/
def matchOpen : List Char → Option (List Char)
  | '\x7b' :: '\x7b' :: rest => some rest
  | _ => none

/-- Generic left-to-right `re.sub` with a function replacement: at every
position try the matcher (which consumes at least one character); on a
match emit the replacement and continue after it, otherwise keep the
character. -/
def scanSub (try_ : List Char → Option (String × List Char)) :
    Nat → List Char → List Char
  | _, [] => []
  | 0, cs => cs
  | fuel + 1, c :: cs =>
    match try_ (c :: cs) with
    | some (repl, rest) => repl.data ++ scanSub try_ fuel rest
    | none => c :: scanSub try_ fuel cs

/-- Match `default\s+['\"]([^'\"]*)['\"]` at the head, returning the
captured literal and the remainder. -/
def matchDefaultQuoted (cs : List Char) : Option (String × List Char) :=
  if chStartsWith cs "default".data then
    let rest := cs.drop 7
    let ws := rest.takeWhile pyIsSpace
    if ws.isEmpty then none
    else
      match rest.drop ws.length with
      | q :: rest2 =>
        if q = '\'' || q = '"' then
          let val := rest2.takeWhile (fun c => !(c = '\'' || c = '"'))
          match rest2.drop val.length with
          | q2 :: rest3 =>
            if q2 = '\'' || q2 = '"' then some (String.mk val, rest3) else none
          | [] => none
        else none
      | [] => none
  else none

/-- `re.search(r"default\s+['\"]([^'\"]*)['\"]", ...)`: first match's
captured group. -/
def searchDefaultQuoted : List Char → Option String
  | [] => none
  | c :: cs =>
    match matchDefaultQuoted (c :: cs) with
    | some (v, _) => some v
    | none => searchDefaultQuoted cs

/-- Whether a `default 'value'` occurrence exists (drives the preprocess
rewrite of `_preprocess_template`). -/
def containsDefaultQuoted (cs : List Char) : Bool :=
  (searchDefaultQuoted cs).isSome

/-- The inner rewrite of `_preprocess_template`: replace every
`default 'v'` by `default("v")`. -/
def rewriteDefaultSyntax (cs : List Char) : List Char :=
  scanSub (fun s =>
      match matchDefaultQuoted s with
      | some (v, rest) => some ("default(\"" ++ v ++ "\")", rest)
      | none => none)
    cs.length cs

/-- Matcher for `\{\{\s*([^}]+default\s+['\"][^'\"]*['\"][^}]*)\}\}`: a
variable block whose content (no closing brace inside) contains a quoted
`default`; the replacement rewrites the default syntax in place. -/
def matchDefaultBlock (cs : List Char) : Option (String × List Char) :=
  match matchOpen cs with
  | none => none
  | some rest =>
    let content := rest.takeWhile (fun c => c ≠ '\x7d')
    if content.isEmpty then none
    else
      match rest.drop content.length with
      | '\x7d' :: '\x7d' :: rest2 =>
        if containsDefaultQuoted content then
          some ("\x7b\x7b" ++ String.mk (rewriteDefaultSyntax content)
            ++ "\x7d\x7d", rest2)
        else none
      | _ => none

/-- `TemplateRenderer._preprocess_template` (`renderer.py` lines 384-413):
rewrite `default 'value'` into `default("value")` inside variable blocks. -/
def preprocessTemplate (s : String) : String :=
  String.mk (scanSub matchDefaultBlock s.data.length s.data)

/-- Attempt `\{\{\s*\__(\w+)\s*\}\}` at the head, returning the captured
name (the word characters after the double underscore). -/
def matchSpecialAt (cs : List Char) : Option String :=
  match matchOpen cs with
  | none => none
  | some rest =>
    match dropSpaces rest with
    | '_' :: '_' :: rest2 =>
      let w := rest2.takeWhile isWordChar
      if w.isEmpty then none
      else
        match dropSpaces (rest2.drop w.length) with
        | '\x7d' :: '\x7d' :: _ => some (String.mk w)
        | _ => none
    | _ => none

/-- `re.search` of the special-variable pattern: first match anywhere. -/
def searchSpecial : List Char → Option String
  | [] => none
  | c :: cs =>
    match matchSpecialAt (c :: cs) with
    | some name => some name
    | none => searchSpecial cs

/-- Matcher consuming one whole `\{\{\s*\__\w+\s*\}\}` token (for the
`re.sub` replacing every special token by the function result). -/
def matchSpecialToken (cs : List Char) : Option (List Char) :=
  match matchOpen cs with
  | none => none
  | some rest =>
    match dropSpaces rest with
    | '_' :: '_' :: rest2 =>
      let w := rest2.takeWhile isWordChar
      if w.isEmpty then none
      else
        match dropSpaces (rest2.drop w.length) with
        | '\x7d' :: '\x7d' :: rest3 => some rest3
        | _ => none
    | _ => none

/-- `re.sub(r'\{\{\s*\__\w+\s*\}\}', str(result), ...)`. -/
def subSpecialAll (replacement : String) (cs : List Char) : List Char :=
  scanSub (fun s => (matchSpecialToken s).map (fun rest => (replacement, rest)))
    cs.length cs

/-- The modelled Jinja2 rendering pass: literal characters are copied, a
`\x7b\x7b` opens a simple variable reference (`\s* name \s* \x7d\x7d`)
substituted by `str(value)` — or by the empty string when the name is
unbound (default `Undefined`) — and anything else after `\x7b\x7b` is a
syntax error. -/
def jinjaRenderGo (vars : List (String × JValue)) :
    Nat → List Char → Except Unit (List Char)
  | _, [] => .ok []
  | 0, cs => .ok cs
  | fuel + 1, '\x7b' :: '\x7b' :: rest =>
    let rest1 := dropSpaces rest
    let w := rest1.takeWhile isWordChar
    if w.isEmpty then .error ()
    else
      match dropSpaces (rest1.drop w.length) with
      | '\x7d' :: '\x7d' :: rest3 =>
        match jinjaRenderGo vars fuel rest3 with
        | .ok out =>
          let sub := match lookupFn vars (String.mk w) with
            | some v => (pyStr v).data
            | none => []
          .ok (sub ++ out)
        | .error e => .error e
      | _ => .error ()
  | fuel + 1, c :: cs =>
    match jinjaRenderGo vars fuel cs with
    | .ok out => .ok (c :: out)
    | .error e => .error e

/-- `env.from_string(...).render(**variables)` on the modelled fragment. -/
def jinjaRender (vars : List (String × JValue)) (s : String) :
    Except Unit String :=
  (jinjaRenderGo vars s.data.length s.data).map String.mk

/-- Matcher for `\{\{\s*(\w+)\(\)\s*\}\}` (fallback pass 1): a function
call; the replacement invokes the registered converter function, or emits
`[FUNC_ERROR:name]` when the function is unknown. -/
def matchFuncCall (r : Renderer) (ctx : ConversionContext) (cs : List Char) :
    Option (String × List Char) :=
  match matchOpen cs with
  | none => none
  | some rest =>
    let rest1 := dropSpaces rest
    let w := rest1.takeWhile isWordChar
    if w.isEmpty then none
    else
      match rest1.drop w.length with
      | '(' :: ')' :: rest2 =>
        match dropSpaces rest2 with
        | '\x7d' :: '\x7d' :: rest3 =>
          let name := String.mk w
          match lookupFn r.fallback_functions name with
          | some f => some (f ctx, rest3)
          | none => some ("[FUNC_ERROR:" ++ name ++ "]", rest3)
        | _ => none
      | _ => none

/-- Matcher for `\{\{\s*([^}|]+?)\s*\}\}` (fallback pass 2): a simple
variable block without filters; the replacement substitutes the bound value
or the `[MISSING:name]` marker. -/
def matchSimpleVar (vars : List (String × JValue)) (cs : List Char) :
    Option (String × List Char) :=
  match matchOpen cs with
  | none => none
  | some rest =>
    let inner := rest.takeWhile (fun c => !(c = '\x7d' || c = '|'))
    if inner.isEmpty then none
    else
      match rest.drop inner.length with
      | '\x7d' :: '\x7d' :: rest2 =>
        let name := String.mk (stripChars inner)
        match lookupFn vars name with
        | some v => some (pyStr v, rest2)
        | none => some ("[MISSING:" ++ name ++ "]", rest2)
      | _ => none

/-- Python `str.upper()` (ASCII). -/
def pyUpper (s : String) : String := String.mk (s.data.map Char.toUpper)

/-- The replacement function of fallback pass 3 (`replace_filtered_var`):
handle a `default` filter specially, else apply `upper`/`lower` when the
filter text occurs, falling back to the plain value or the
`[MISSING:name]` marker. -/
def replaceFilteredVar (vars : List (String × JValue)) (varExpr : String) :
    String :=
  let varName := pyStrip ((pySplit varExpr '|').getD 0 "")
  if pyContainsSub varExpr "default" then
    let fromDefault :=
      match searchDefaultQuoted varExpr.data with
      | some d => d
      | none => "[MISSING:" ++ varName ++ "]"
    match lookupFn vars varName with
    | some v =>
      match v with
      | JValue.null => fromDefault
      | _ => pyStr v
    | none => fromDefault
  else
    match lookupFn vars varName with
    | some v =>
      if pyContainsSub varExpr "| upper" then pyUpper (pyStr v)
      else if pyContainsSub varExpr "| lower" then pyLower (pyStr v)
      else pyStr v
    | none => "[MISSING:" ++ varName ++ "]"

/-- Matcher for `\{\{\s*([^}]+?)\s*\}\}` (fallback pass 3): any remaining
variable block (filters allowed), replaced via `replaceFilteredVar`. -/
def matchFilteredVar (vars : List (String × JValue)) (cs : List Char) :
    Option (String × List Char) :=
  match matchOpen cs with
  | none => none
  | some rest =>
    let inner := rest.takeWhile (fun c => c ≠ '\x7d')
    if inner.isEmpty then none
    else
      match rest.drop inner.length with
      | '\x7d' :: '\x7d' :: rest2 =>
        some (replaceFilteredVar vars (String.mk (stripChars inner)), rest2)
      | _ => none

/-- `TemplateRenderer._fallback_render` (`renderer.py` lines 318-382): the
three substitution passes — function calls, simple variables, filtered
variables — applied in order. -/
def fallbackRender (r : Renderer) (s : String) (ctx : ConversionContext) :
    String :=
  let r1 := scanSub (matchFuncCall r ctx) s.data.length s.data
  let r2 := scanSub (matchSimpleVar ctx.variables) r1.length r1
  let r3 := scanSub (matchFilteredVar ctx.variables) r2.length r2
  String.mk r3

/-- `TemplateRenderer._render_string` (`renderer.py` lines 262-289):
preprocess, take the special-variable path when a special token occurs and
its converter function is registered (substituting every special token by
the function result), otherwise render with Jinja2, degrading to the
fallback renderer when strict rendering raises. -/
def renderString (r : Renderer) (templateStr : String)
    (ctx : ConversionContext) : String :=
  let t := preprocessTemplate templateStr
  let normal :=
    match jinjaRender ctx.variables t with
    | .ok out => out
    | .error _ => fallbackRender r t ctx
  match searchSpecial t.data with
  | some varName =>
    match lookupFn r.converter_functions ("func_" ++ varName) with
    | some f => String.mk (subSpecialAll (pyStr (f ctx)) t.data)
    | none => normal
  | none => normal

/-- The path update `f"\x7bold_path\x7d.\x7bkey\x7d" if old_path else key`
of `_render_dict`. -/
def joinPath : Option String → String → String
  | some s, k => if s.isEmpty then k else s ++ "." ++ k
  | none, k => k

mutual

/-- `TemplateRenderer._render_dict` (`renderer.py` lines 226-246),
state-passing: string values render under the extended `current_path`,
which is then restored; dict values additionally bump `render_depth` around
the recursion; list values extend `current_path` and recurse — the source
does not restore `current_path` in this branch; other values pass through
untouched. -/
def renderDict (r : Renderer) :
    List (String × JValue) → ConversionContext →
      List (String × JValue) × ConversionContext
  | [], ctx => ([], ctx)
  | (k, v) :: rest, ctx =>
    match v with
    | .str s =>
      let old := ctx.current_path
      let ctx1 : ConversionContext :=
        { ctx with current_path := some (joinPath old k) }
      let s2 := renderString r s ctx1
      let ctx2 : ConversionContext := { ctx1 with current_path := old }
      let p := renderDict r rest ctx2
      ((k, JValue.str s2) :: p.1, p.2)
    | .obj fields =>
      let old := ctx.current_path
      let ctx1 : ConversionContext :=
        { ctx with
            current_path := some (joinPath old k)
            render_depth := ctx.render_depth + 1 }
      let p := renderDict r fields ctx1
      let ctx2 : ConversionContext :=
        { p.2 with
            render_depth := p.2.render_depth - 1
            current_path := old }
      let q := renderDict r rest ctx2
      ((k, JValue.obj p.1) :: q.1, q.2)
    | .arr items =>
      let old := ctx.current_path
      let ctx1 : ConversionContext :=
        { ctx with current_path := some (joinPath old k) }
      let p := renderList r items ctx1
      let q := renderDict r rest p.2
      ((k, JValue.arr p.1) :: q.1, q.2)
    | other =>
      let q := renderDict r rest ctx
      ((k, other) :: q.1, q.2)

/-- `TemplateRenderer._render_list` (`renderer.py` lines 248-260),
state-passing: dict and list items bump `render_depth` around the
recursion; `current_path` is untouched at this level. -/
def renderList (r : Renderer) :
    List JValue → ConversionContext → List JValue × ConversionContext
  | [], ctx => ([], ctx)
  | v :: rest, ctx =>
    match v with
    | .str s =>
      let s2 := renderString r s ctx
      let p := renderList r rest ctx
      (JValue.str s2 :: p.1, p.2)
    | .obj fields =>
      let ctx1 : ConversionContext :=
        { ctx with render_depth := ctx.render_depth + 1 }
      let p := renderDict r fields ctx1
      let ctx2 : ConversionContext :=
        { p.2 with render_depth := p.2.render_depth - 1 }
      let q := renderList r rest ctx2
      (JValue.obj p.1 :: q.1, q.2)
    | .arr items =>
      let ctx1 : ConversionContext :=
        { ctx with render_depth := ctx.render_depth + 1 }
      let p := renderList r items ctx1
      let ctx2 : ConversionContext :=
        { p.2 with render_depth := p.2.render_depth - 1 }
      let q := renderList r rest ctx2
      (JValue.arr p.1 :: q.1, q.2)
    | other =>
      let q := renderList r rest ctx
      (other :: q.1, q.2)

end

/-- `TemplateRenderer._get_nested_value` (`renderer.py` lines 216-224):
walk dict keys, `None` on any miss. -/
def getNestedVal : JValue → List String → Option JValue
  | current, [] => some current
  | current, p :: ps =>
    match current with
    | .obj fields =>
      match lookupField fields p with
      | some v => getNestedVal v ps
      | none => none
    | _ => none

/-- `TemplateRenderer._set_nested_value` (`renderer.py` lines 207-214):
navigate the prefix creating missing `\x7b\x7d` intermediates, then assign
at the final part; descending into a non-dict value raises (returns
`none`). -/
def setNestedVal : List (String × JValue) → List String → JValue →
    Option (List (String × JValue))
  | _, [], _ => none
  | fields, [p], value => some (setField fields p value)
  | fields, p :: ps :: pss, value =>
    let child := match lookupField fields p with
      | some c => c
      | none => JValue.obj []
    match child with
    | .obj cf =>
      (setNestedVal cf (ps :: pss) value).map
        (fun cf2 => setField fields p (JValue.obj cf2))
    | _ => none

/-- `TemplateRenderer._find_array_data_heuristic` (`renderer.py` lines
167-175): the first nonempty list value of the source whose single element
is not a dynamic-array marker string. -/
def findArrayDataHeuristic : List (String × JValue) → Option (List JValue)
  | [] => none
  | (_, v) :: rest =>
    match v with
    | .arr items =>
      if items.length > 0
          && !(items.length = 1
            && (match items.getD 0 JValue.null with
              | .str s => pyStartsWith s "\x7b#"
              | _ => false)) then
        some items
      else findArrayDataHeuristic rest
    | _ => findArrayDataHeuristic rest

/-- Scanner collecting the variable names of the modelled Jinja2 fragment
(`meta.find_undeclared_variables` on simple substitutions). -/
def collectVarsChars : Nat → List Char → List String
  | _, [] => []
  | 0, _ => []
  | fuel + 1, '\x7b' :: '\x7b' :: rest =>
    let rest1 := dropSpaces rest
    let w := rest1.takeWhile isWordChar
    if w.isEmpty then collectVarsChars fuel rest
    else
      match dropSpaces (rest1.drop w.length) with
      | '\x7d' :: '\x7d' :: rest3 => String.mk w :: collectVarsChars fuel rest3
      | _ => collectVarsChars fuel rest
  | fuel + 1, _ :: cs => collectVarsChars fuel cs

mutual

/-- `TemplateRenderer._collect_template_variables` (`renderer.py` lines
192-205) over a value. -/
def collectTemplateVars : JValue → List String
  | .str s => collectVarsChars s.data.length s.data
  | .obj fields => collectTemplateVarsFields fields
  | .arr items => collectTemplateVarsList items
  | _ => []

/-- `collectTemplateVars` over dict entries. -/
def collectTemplateVarsFields : List (String × JValue) → List String
  | [] => []
  | (_, v) :: rest => collectTemplateVars v ++ collectTemplateVarsFields rest

/-- `collectTemplateVars` over list items. -/
def collectTemplateVarsList : List JValue → List String
  | [] => []
  | v :: rest => collectTemplateVars v ++ collectTemplateVarsList rest

end

/-- First-occurrence de-duplication (the Python variable set). -/
def dedupKeep (seen : List String) : List String → List String
  | [] => []
  | s :: rest =>
    if seen.contains s then dedupKeep seen rest
    else s :: dedupKeep (s :: seen) rest

/-- `TemplateRenderer._extract_variables_from_item_data` (`renderer.py`
lines 177-190): collect the item template's variable names and bind those
present in the element data. -/
def extractVariablesFromItemData (templateItem : List (String × JValue))
    (itemData : List (String × JValue)) : List (String × JValue) :=
  (dedupKeep [] (collectTemplateVarsFields templateItem)).filterMap
    (fun name => (lookupField itemData name).map (fun v => (name, v)))

/-- The `_\x7bi\x7d`-suffixed variable harvest of `_render_dynamic_array`
(`renderer.py` lines 129-134): keep bindings whose name ends with the index
suffix, stripped of it. -/
def extractIndexedVars (vars : List (String × JValue)) (i : Nat) :
    List (String × JValue) :=
  vars.filterMap (fun p =>
    if pyEndsWith p.1 ("_" ++ toString i) then
      some (String.mk
        (p.1.data.take (p.1.data.length - ("_" ++ toString i).data.length)),
        p.2)
    else none)

/-- The per-element `ConversionContext` construction of
`_render_dynamic_array` (`renderer.py` lines 127-157): harvest the
element's variables, then build the child context with the array position,
incremented render depth, the parent's current path as `parent_path`, and
`processed_items = i`;  `__post_init__` then derives `is_last_item`. -/
def elementContext (r : Renderer) (marker : ArrayMarker)
    (base : ConversionContext) (arrayTotal : Nat) (i : Nat)
    (itemData : JValue) : ConversionContext :=
  let indexed := extractIndexedVars base.variables i
  let itemVars :=
    if indexed.isEmpty then
      match itemData with
      | .obj df => extractVariablesFromItemData marker.template_item df
      | _ => indexed
    else indexed
  postInit
    { source_protocol := base.source_protocol
      target_protocol := base.target_protocol
      source_json := base.source_json
      «variables» := itemVars
      array_path := some marker.field_path
      array_index := some (i : Int)
      array_total := some (arrayTotal : Int)
      current_element := match itemData with
        | .obj df => some df
        | _ => none
      render_depth := base.render_depth + 1
      parent_path := base.current_path
      source_protocol_id := base.source_protocol_id
      target_protocol_id := base.target_protocol_id
      protocol_family := base.protocol_family
      processed_items := (i : Int) }
    r.genTimestamp r.genConversionId

/-- The per-element loop of `_render_dynamic_array`: render a copy of the
item template under each element's context, collecting outputs in input
order. -/
def renderArrayItems (r : Renderer) (marker : ArrayMarker)
    (base : ConversionContext) (arrayTotal : Nat) :
    Nat → List JValue → List (List (String × JValue))
  | _, [] => []
  | i, item :: rest =>
    (renderDict r marker.template_item
      (elementContext r marker base arrayTotal i item)).1
      :: renderArrayItems r marker base arrayTotal (i + 1) rest

/-- `TemplateRenderer._render_dynamic_array` (`renderer.py` lines 106-165):
resolve the marker's field path in the source (falling back to the
heuristic), return the result unchanged when no list is found, otherwise
render each element under its child context and write the collected list
back at the marker's path (a failing write raises). -/
def renderDynamicArray (r : Renderer) (result : List (String × JValue))
    (marker : ArrayMarker) (base : ConversionContext) :
    Except String (List (String × JValue)) :=
  let parts := pySplit marker.field_path '.'
  let fromPath : Option (List JValue) :=
    match getNestedVal (JValue.obj base.source_json) parts with
    | some (.arr items) => some items
    | _ => none
  let arrayData : Option (List JValue) :=
    match fromPath with
    | some items => some items
    | none => findArrayDataHeuristic base.source_json
  match arrayData with
  | none => .ok result
  | some items =>
    let rendered := renderArrayItems r marker base items.length 0 items
    match setNestedVal result parts
        (JValue.arr (rendered.map JValue.obj)) with
    | some result2 => .ok result2
    | none => .error "TypeError"

/-- The `array_markers` loop of `TemplateRenderer.render` (`renderer.py`
lines 96-100): dynamic markers expand in order. -/
def renderMarkers (r : Renderer) :
    List ArrayMarker → List (String × JValue) → ConversionContext →
      Except String (List (String × JValue))
  | [], result, _ => .ok result
  | m :: rest, result, ctx =>
    if m.is_dynamic then
      match renderDynamicArray r result m ctx with
      | .ok result2 => renderMarkers r rest result2 ctx
      | .error e => .error e
    else renderMarkers r rest result ctx

mutual

/-- `TemplateRenderer._restore_jinja_placeholders` (`renderer.py` lines
415-446): replace placeholder strings by their recorded original
content. -/
def restorePlaceholders (table : List (String × String)) : JValue → JValue
  | .obj fields => .obj (restorePlaceholdersFields table fields)
  | .arr items => .arr (restorePlaceholdersList table items)
  | .str s =>
    match lookupFn table s with
    | some original => .str original
    | none => .str s
  | v => v

/-- `restorePlaceholders` over dict entries. -/
def restorePlaceholdersFields (table : List (String × String)) :
    List (String × JValue) → List (String × JValue)
  | [] => []
  | (k, v) :: rest =>
    (k, restorePlaceholders table v) :: restorePlaceholdersFields table rest

/-- `restorePlaceholders` over list items. -/
def restorePlaceholdersList (table : List (String × String)) :
    List JValue → List JValue
  | [] => []
  | v :: rest =>
    restorePlaceholders table v :: restorePlaceholdersList table rest

end

/-- `TemplateRenderer.render` (`renderer.py` lines 59-104): build the root
context, restore placeholders when given, expand the dynamic array markers,
then run the regular rendering pass over the result. -/
def render (r : Renderer) (template : List (String × JValue))
    (vars : List (String × JValue))
    (source_protocol target_protocol : String)
    (source_json : List (String × JValue))
    (array_markers : List ArrayMarker)
    (source_protocol_id target_protocol_id : Option String)
    (jinja_placeholders : Option (List (String × String))) :
    Except String (List (String × JValue)) :=
  let context := postInit
    { source_protocol := source_protocol
      target_protocol := target_protocol
      source_json := source_json
      «variables» := vars
      source_protocol_id := source_protocol_id
      target_protocol_id := target_protocol_id }
    r.genTimestamp r.genConversionId
  let result := template
  let result := match jinja_placeholders with
    | some table => restorePlaceholdersFields table result
    | none => result
  match renderMarkers r array_markers result context with
  | .ok result2 => .ok (renderDict r result2 context).1
  | .error e => .error e

/-! ## CandidateScorer: embedding of `src/core/schema_matcher.py`

Python float arithmetic on scores is modelled by exact rationals; the score
combinators use only sums, products by constants, `min`/`max` and division,
on which the two agree for the monotonicity property checked here. -/

/-- `MatchStrategy` (`schema_matcher.py` lines 19-23). -/
inductive MatchStrategy where
  | strict
  | lenient
  | best_effort
deriving Repr, DecidableEq

/-- `ValidationResult` (`utils/yaml_schema.py` lines 42-49); `validate_data`
constructs it with `is_valid = (len(errors) == 0)`. -/
structure ValidationResult where
  is_valid : Bool
  errors : List String
  warnings : List String
  matched_paths : List String
  unmatched_paths : List String
deriving Repr

/-- The `score_weights` dict of `MatchConfiguration`. -/
structure ScoreWeights where
  validation : ℚ
  path_coverage : ℚ
  variable_completeness : ℚ
deriving Repr

/-- The default weights `validation 0.6, path_coverage 0.3,
variable_completeness 0.1` (`schema_matcher.py` lines 54-58). -/
def defaultScoreWeights : ScoreWeights := ⟨6/10, 3/10, 1/10⟩

/-- The validation sub-score of `_calculate_match_score`
(`schema_matcher.py` lines 283-289): `1.0` when valid, otherwise
`max(0, 1 - min(len(errors)*0.2, 1))`. -/
def validationScore (vr : ValidationResult) : ℚ :=
  if vr.is_valid then 1
  else max 0 (1 - min ((vr.errors.length : ℚ) * (2/10)) 1)

/-- The path-coverage sub-score (`schema_matcher.py` lines 295-304):
`|matched ∩ expected| / |expected|` on the de-duplicated sets, `1.0` when no
paths are expected. -/
def pathCoverage (expectedPaths matchedPaths : List String) : ℚ :=
  if expectedPaths.toFinset = ∅ then 1
  else ((matchedPaths.toFinset ∩ expectedPaths.toFinset).card : ℚ)
    / (expectedPaths.toFinset.card : ℚ)

/-- The variable-completeness sub-score (`schema_matcher.py` lines
310-319): the fraction of declared variables whose value is extractable,
`1.0` when there are no variables. -/
def variableCompleteness (varNames : List String)
    (canExtract : String → Bool) : ℚ :=
  if varNames.length = 0 then 1
  else ((varNames.filter canExtract).length : ℚ) / (varNames.length : ℚ)

/-- The strategy-dependent combination and clamping of
`_calculate_match_score` (`schema_matcher.py` lines 324-348): STRICT zeroes
the score of an invalid result and otherwise applies the configured
weighted sum; LENIENT uses the fixed weights 0.3/0.5/0.2; BEST_EFFORT uses
the configured weighted sum; the result is clamped to `[0, 1]`. -/
def finalScore (strategy : MatchStrategy) (weights : ScoreWeights)
    (vr : ValidationResult) (path_coverage variable_completeness : ℚ) : ℚ :=
  let vscore := validationScore vr
  let raw :=
    match strategy with
    | .strict =>
      if vr.is_valid = false then 0
      else vscore * weights.validation + path_coverage * weights.path_coverage
        + variable_completeness * weights.variable_completeness
    | .lenient =>
      vscore * (3/10) + path_coverage * (5/10)
        + variable_completeness * (2/10)
    | .best_effort =>
      vscore * weights.validation + path_coverage * weights.path_coverage
        + variable_completeness * weights.variable_completeness
  max 0 (min 1 raw)

/-- `SchemaMatcher._calculate_match_score` (`schema_matcher.py` lines
270-350), assembled from the three sub-scores; the expected paths come from
the template's variable mapping and extractability is decided against the
input data. -/
def calculateMatchScore (strategy : MatchStrategy) (weights : ScoreWeights)
    (vr : ValidationResult) (expectedPaths varNames : List String)
    (canExtract : String → Bool) : ℚ :=
  finalScore strategy weights vr
    (pathCoverage expectedPaths vr.matched_paths)
    (variableCompleteness varNames canExtract)

/-! ## FieldRemapper: embedding of `src/core/field_mapper.py` -/

/-- The character alternatives of the first split pattern
`r'与|和|及'` of `split_intersection`. -/
def intersectionSeps : List Char := ['与', '和', '及']

/-- `re.split` on an alternation of single characters: split at every
occurrence of any of the separators. -/
def pySplitAnyChars (seps : List Char) : List Char → List (List Char)
  | [] => [[]]
  | c :: cs =>
    if c ∈ seps then [] :: pySplitAnyChars seps cs
    else
      match pySplitAnyChars seps cs with
      | head :: tail => (c :: head) :: tail
      | [] => [[c]]

/-- Attempt to match the regex `\s+<sep>\s+` at the head of the input,
returning the remainder after the (greedy) match. -/
def matchSpacedSep (sep : Char) (cs : List Char) : Option (List Char) :=
  let ws1 := cs.takeWhile pyIsSpace
  if ws1.isEmpty then none
  else
    match cs.drop ws1.length with
    | c :: rest =>
      if c = sep then
        let ws2 := rest.takeWhile pyIsSpace
        if ws2.isEmpty then none else some (rest.drop ws2.length)
      else none
    | [] => none

/-- `re.split(r'\s+<sep>\s+', ...)`: scan left to right, breaking the input
at every spaced-separator occurrence (fuel bounds the scan by the input
length). -/
def spacedSplitGo (sep : Char) : Nat → List Char → List Char → List (List Char)
  | _, acc, [] => [acc.reverse]
  | 0, acc, cs => [acc.reverse ++ cs]
  | fuel + 1, acc, c :: rest =>
    match matchSpacedSep sep (c :: rest) with
    | some rem => acc.reverse :: spacedSplitGo sep fuel [] rem
    | none => spacedSplitGo sep fuel (c :: acc) rest

/-- String-level spaced split. -/
def spacedSplit (sep : Char) (s : String) : List String :=
  (spacedSplitGo sep s.data.length [] s.data).map String.mk

/-- `FieldMapper.split_intersection` (`field_mapper.py` lines 236-254) on
string input (the non-string branch `[str(value), '']` lies outside the
modelled domain): try each split pattern in order — the `与|和|及`
alternation, then `-`, then the spaced forms — and return the first two
parts stripped as soon as a pattern yields at least two parts; otherwise
`[value, '']`. -/
def splitIntersection (value : String) : List String :=
  let p1 := (pySplitAnyChars intersectionSeps value.data).map String.mk
  if 2 ≤ p1.length then [pyStrip (p1.getD 0 ""), pyStrip (p1.getD 1 "")]
  else
    let p2 := pySplit value '-'
    if 2 ≤ p2.length then [pyStrip (p2.getD 0 ""), pyStrip (p2.getD 1 "")]
    else
      let p3 := spacedSplit '和' value
      if 2 ≤ p3.length then [pyStrip (p3.getD 0 ""), pyStrip (p3.getD 1 "")]
      else
        let p4 := spacedSplit '与' value
        if 2 ≤ p4.length then [pyStrip (p4.getD 0 ""), pyStrip (p4.getD 1 "")]
        else [value, ""]

/-- `FieldMapper.combine_intersection` (`field_mapper.py` lines 256-265):
join two nonempty roads with `与`; fall back to whichever is nonempty. -/
def combineIntersection (primary secondary : String) : String :=
  if primary ≠ "" ∧ secondary ≠ "" then primary ++ "与" ++ secondary
  else if primary ≠ "" then primary
  else if secondary ≠ "" then secondary
  else ""

/-- `combine_intersection(*split_intersection(s))`: the remap round trip of
the P5 property (`split_intersection` always returns two parts). -/
def combineSplitRoundTrip (s : String) : String :=
  combineIntersection ((splitIntersection s).getD 0 "")
    ((splitIntersection s).getD 1 "")

/-- A context with `current_path` erased: two contexts with equal `stripPath`
images agree on every field except possibly `current_path`. -/
def stripPath (c : ConversionContext) : ConversionContext :=
  { c with current_path := none }

/-- A renderer with empty function tables, used for concrete evaluations. -/
def cexRenderer : Renderer :=
  { converter_functions := []
    fallback_functions := []
    genTimestamp := "ts"
    genConversionId := "id" }

/-- A freshly constructed context (all defaulted fields at their defaults,
`current_path = none`), used for concrete evaluations. -/
def cexCtx : ConversionContext :=
  { source_protocol := "protocol_a"
    target_protocol := "protocol_b"
    source_json := []
    «variables» := [] }

/-- A template leaf consisting of a single Regular variable block
`\x7b\x7bname\x7d\x7d`, as a character list. -/
def varBlock (name : List Char) : List Char :=
  '\x7b' :: '\x7b' :: (name ++ ['\x7d', '\x7d'])

/-- A concrete dynamic array marker with an empty item template, used for
concrete evaluations. -/
def c2Marker : ArrayMarker :=
  { field_path := "data", is_dynamic := true, template_item := [] }

/-- A concrete base context whose source holds a two-element list at the
key `data`, used for concrete evaluations. -/
def c2Base : ConversionContext :=
  { source_protocol := "protocol_a"
    target_protocol := "protocol_b"
    source_json := [("data", JValue.arr [JValue.str "x", JValue.str "y"])]
    «variables» := [] }

/-! ## Theorems -/

theorem lookupField_setField_self
    (fields : List (String × JValue)) (key : String) (c : JValue)
    (h : lookupField fields key = some c) : setField fields key c = fields := by
  induction fields with
  | nil => simp [lookupField] at h
  | cons p rest ih =>
    obtain ⟨k, w⟩ := p
    by_cases hk : k = key
    · subst hk
      simp [lookupField] at h
      simp [setField, h]
    · simp [lookupField, hk] at h
      simp [setField, hk, ih h]

theorem list_set_getD_self :
    ∀ (l : List JValue) (n : Nat), n < l.length →
      l.set n (l.getD n JValue.null) = l := by
  intro l
  induction l with
  | nil => intro n h; simp at h
  | cons x xs ih =>
    intro n h
    cases n with
    | zero => simp
    | succ m => simpa using ih m (by simpa using h)

theorem padTo_eq_self (items : List JValue) (i : Int)
    (h : normIndex i items.length < (items.length : Int)) :
    padTo items i = items := by
  unfold padTo
  unfold normIndex at h
  have hz : (i + 1 - (items.length : Int)).toNat = 0 := by
    split at h <;> omega
  simp [hz]

theorem getValue_cons_null (seg : PathSegment) (rest : List PathSegment) :
    ∀ v, getValue (seg :: rest) JValue.null ≠ Except.ok v := by
  intro v
  cases seg <;> simp [getValue]

theorem replaceNullSlot_of_ne (c fresh : JValue) (h : c ≠ JValue.null) :
    replaceNullSlot c fresh = c := by
  cases c <;> simp_all [replaceNullSlot]

/-- C1 (amended): for nonempty paths built only of required object keys and
array indices (no optional segments, no wildcards), whenever `get_value`
succeeds, writing the value back with `set_value` succeeds and returns the
tree unchanged. -/
theorem getValue_setValue_roundtrip :
    ∀ (segs : List PathSegment) (t v : JValue),
      segs ≠ [] → (∀ s ∈ segs, plainSegment s = true) →
      getValue segs t = .ok v → setValue segs t v = .ok t := by
  intro segs
  induction segs with
  | nil => intro t v h; exact absurd rfl h
  | cons seg rest ih =>
    intro t v _ hplain hget
    have hseg : plainSegment seg = true := hplain seg (List.mem_cons_self _ _)
    cases rest with
    | nil =>
      cases seg with
      | objectKey key opt =>
        have hopt : opt = false := by
          simpa [plainSegment] using hseg
        subst hopt
        cases t <;> simp only [getValue] at hget <;>
          try exact Except.noConfusion hget
        rename_i fields
        rcases hlk : lookupField fields key with _ | c <;>
          simp only [hlk] at hget
        · exact absurd hget (by simp)
        · replace hget : (Except.ok c : Except String JValue) = Except.ok v := by
            simpa [getValue] using hget
          cases hget
          simp [setValue, setFinal, lookupField_setField_self fields key _ hlk]
      | arrayIndex i =>
        cases t <;> simp only [getValue] at hget <;>
          try exact Except.noConfusion hget
        rename_i items
        split at hget
        case isFalse => exact Except.noConfusion hget
        case isTrue h =>
          replace hget : (Except.ok (items.getD
                (normIndex i items.length).toNat JValue.null)
              : Except String JValue) = Except.ok v := by
            simpa [getValue] using hget
          cases hget
          have hpad : padTo items i = items := padTo_eq_self items i h.2
          simp only [setValue, setFinal, hpad]
          rw [if_pos h,
            list_set_getD_self items (normIndex i items.length).toNat (by omega)]
      | arrayWildcard => simp [plainSegment] at hseg
    | cons next rest2 =>
      have hplain2 : ∀ s ∈ next :: rest2, plainSegment s = true := by
        intro s hs
        exact hplain s (List.mem_cons_of_mem _ hs)
      cases seg with
      | objectKey key opt =>
        have hopt : opt = false := by
          simpa [plainSegment] using hseg
        subst hopt
        cases t <;> simp only [getValue] at hget <;>
          try exact Except.noConfusion hget
        rename_i fields
        rcases hlk : lookupField fields key with _ | c <;>
          simp only [hlk] at hget
        · exact absurd hget (by simp)
        · have hrec := ih c v (by simp) hplain2 hget
          simp [setValue, hlk, hrec, lookupField_setField_self fields key _ hlk]
      | arrayIndex i =>
        cases t <;> simp only [getValue] at hget <;>
          try exact Except.noConfusion hget
        rename_i items
        split at hget
        case isFalse => exact Except.noConfusion hget
        case isTrue h =>
          have hpad : padTo items i = items := padTo_eq_self items i h.2
          have hc := ih _ v (by simp) hplain2 hget
          have hnotnull :
              items.getD (normIndex i items.length).toNat JValue.null
                ≠ JValue.null := by
            intro hn
            rw [hn] at hget
            exact getValue_cons_null next rest2 v hget
          simp only [setValue, hpad]
          rw [if_pos h, replaceNullSlot_of_ne _ _ hnotnull, hc]
          show Except.ok (JValue.arr (items.set (normIndex i items.length).toNat
            (items.getD (normIndex i items.length).toNat JValue.null)))
            = Except.ok (JValue.arr items)
          rw [list_set_getD_self items (normIndex i items.length).toNat (by omega)]
      | arrayWildcard => simp [plainSegment] at hseg

/-- C1 witness instantiation data. -/
theorem getValue_setValue_roundtrip_witness :
    ([PathSegment.objectKey "slots" false] ≠ []
      ∧ (∀ s ∈ [PathSegment.objectKey "slots" false], plainSegment s = true)
      ∧ getValue [PathSegment.objectKey "slots" false]
          (JValue.obj [("slots", JValue.int 3)]) = Except.ok (JValue.int 3))
    ∧ setValue [PathSegment.objectKey "slots" false]
        (JValue.obj [("slots", JValue.int 3)]) (JValue.int 3)
        = Except.ok (JValue.obj [("slots", JValue.int 3)]) := by
  refine ⟨⟨by simp, by simp [plainSegment], by simp [getValue, lookupField]⟩, ?_⟩
  exact getValue_setValue_roundtrip _ _ _ (by simp) (by simp [plainSegment])
    (by simp [getValue, lookupField])

/-- C1 counterexample: the round-trip claim fails as stated.  For the
optional path `a?` on the empty object, `exists` holds and `get_value`
returns `null`, but `set_value` materialises the key, changing the tree;
for the wildcard path `a[*][0]` on `{"a": [[1],[2]]}`, `exists` holds but
writing back the wildcard-collected value overwrites `a[0]`; and the empty
path always exists yet `set_value` rejects it. -/
theorem getValue_setValue_roundtrip_counterexample :
    (existsPath [PathSegment.objectKey "a" true] (JValue.obj []) = true
      ∧ getValue [PathSegment.objectKey "a" true] (JValue.obj [])
          = Except.ok JValue.null
      ∧ setValue [PathSegment.objectKey "a" true] (JValue.obj []) JValue.null
          = Except.ok (JValue.obj [("a", JValue.null)])
      ∧ JValue.obj [("a", JValue.null)] ≠ JValue.obj [])
    ∧ (existsPath
          [PathSegment.objectKey "a" false, PathSegment.arrayWildcard,
            PathSegment.arrayIndex 0]
          (JValue.obj [("a", JValue.arr [JValue.arr [JValue.int 1],
            JValue.arr [JValue.int 2]])]) = true
      ∧ getValue
          [PathSegment.objectKey "a" false, PathSegment.arrayWildcard,
            PathSegment.arrayIndex 0]
          (JValue.obj [("a", JValue.arr [JValue.arr [JValue.int 1],
            JValue.arr [JValue.int 2]])])
          = Except.ok (JValue.arr [JValue.int 1, JValue.int 2])
      ∧ setValue
          [PathSegment.objectKey "a" false, PathSegment.arrayWildcard,
            PathSegment.arrayIndex 0]
          (JValue.obj [("a", JValue.arr [JValue.arr [JValue.int 1],
            JValue.arr [JValue.int 2]])])
          (JValue.arr [JValue.int 1, JValue.int 2])
          = Except.ok (JValue.obj [("a",
              JValue.arr [JValue.arr [JValue.int 1, JValue.int 2],
                JValue.arr [JValue.int 2]])])
      ∧ JValue.obj [("a", JValue.arr [JValue.arr [JValue.int 1, JValue.int 2],
            JValue.arr [JValue.int 2]])]
          ≠ JValue.obj [("a", JValue.arr [JValue.arr [JValue.int 1],
            JValue.arr [JValue.int 2]])])
    ∧ (∀ t v, setValue [] t v = Except.error "Cannot set value on empty path") := by
  refine ⟨⟨?_, ?_, ?_, ?_⟩, ⟨?_, ?_, ?_, ?_⟩, fun t v => rfl⟩
  · simp [existsPath, getValue, lookupField]
  · simp [getValue, lookupField]
  · simp [setValue, setFinal, setField]
  · simp
  · simp [existsPath, getValue, getValueList, lookupField, normIndex, Except.map]
  · simp [getValue, getValueList, lookupField, normIndex, Except.map]
  · simp [setValue, setFinal, padTo, lookupField, setField, getValue,
      isIndexLike, normIndex, replaceNullSlot]
  · simp

/-- C5 (amended): `set_value` on a wildcard segment never raises an
`UnsupportedOperation` (no such error exists in the code): a final wildcard
segment matches no branch of the assignment code, so the call returns with
no write performed, and a non-final wildcard segment is silently skipped
during navigation. -/
theorem setValue_wildcard_skip :
    ∀ (rest : List PathSegment) (data v : JValue),
      setValue (PathSegment.arrayWildcard :: rest) data v =
        if rest.isEmpty then Except.ok data else setValue rest data v := by
  intro rest data v
  cases rest with
  | nil => rfl
  | cons next rest2 => rfl

theorem lookupField_none_iff (df : List (String × JValue)) (k : String) :
    lookupField df k = none ↔ k ∉ df.map Prod.fst := by
  induction df with
  | nil => simp [lookupField]
  | cons p rest ih =>
    obtain ⟨k2, v2⟩ := p
    by_cases h : k2 = k
    · subst h
      simp [lookupField]
    · simp [lookupField, h, ih, Ne.symm h]

theorem isConvSkippable_not_comment (s : String)
    (h : isConvSkippable (JValue.str s) = true) : isCommentLeaf s = false := by
  simp only [isConvSkippable, Bool.and_eq_true] at h
  obtain ⟨h1, -⟩ := h
  simp only [isCommentLeaf]
  rw [Bool.and_eq_false_iff]
  left
  simp only [pyStartsWith] at h1 ⊢
  rcases hcs : (pyStrip s).data with _ | ⟨x, _ | ⟨y, rest⟩⟩ <;>
    rw [hcs] at h1 <;> simp_all [chStartsWith]

theorem isConvSkippable_skippable (s : String)
    (h : isConvSkippable (JValue.str s) = true) :
    isSkippableExpr (JValue.str s) = true := by
  simp only [isConvSkippable, Bool.and_eq_true] at h
  simp [isSkippableExpr, h.1]

theorem clean_of_allExpr :
    ∀ t, allExprLeaves t = true → cleanTemplateForMatching t = some t := by
  refine allExprLeaves.induct
    (fun t => allExprLeaves t = true → cleanTemplateForMatching t = some t)
    (fun fs => allExprLeavesFields fs = true → cleanFields fs = fs)
    ?_ ?_ ?_ ?_ ?_
  · intro s h
    simp only [allExprLeaves] at h
    simp [cleanTemplateForMatching, isConvSkippable_not_comment s h]
  · intro fields ih h
    simp only [allExprLeaves] at h
    simp [cleanTemplateForMatching, ih h]
  · intro t h1 h2 h
    cases t <;> simp [allExprLeaves] at h <;> simp_all
  · intro _
    rfl
  · intro k v rest ihv ihr h
    simp only [allExprLeavesFields, Bool.and_eq_true] at h
    simp [cleanFields, ihv h.1, ihr h.2]

theorem recursiveMatch_of_allExpr :
    ∀ t, ∀ d, allExprLeaves t = true → sameKeyStructure t d = true →
      recursiveMatch t d = true := by
  refine allExprLeaves.induct
    (fun t => ∀ d, allExprLeaves t = true → sameKeyStructure t d = true →
      recursiveMatch t d = true)
    (fun fs => ∀ df, allExprLeavesFields fs = true → alignedFields fs df = true →
      matchFields fs df = true)
    ?_ ?_ ?_ ?_ ?_
  · intro s d h _
    simp only [allExprLeaves] at h
    simp [recursiveMatch, isConvSkippable_skippable s h]
  · intro fields ih d h hsk
    simp only [allExprLeaves] at h
    cases d <;> simp [sameKeyStructure] at hsk
    rename_i dfields
    simp [recursiveMatch, ih dfields h hsk.2]
  · intro t h1 h2 d h
    cases t <;> simp [allExprLeaves] at h <;> simp_all
  · intro df _ _
    rfl
  · intro k v rest ihv ihr df h ha
    simp only [allExprLeavesFields, Bool.and_eq_true] at h
    simp only [alignedFields, Bool.and_eq_true] at ha
    by_cases hsk : isSkippableExpr v = true
    · simp [matchFields, hsk, ihr df h.2 ha.2]
    · have hv := h.1
      cases v with
      | str s => exact absurd (isConvSkippable_skippable s hv) hsk
      | obj tf2 =>
        rcases hlk : lookupField df k with _ | dv <;> rw [hlk] at ha
        · simp at ha
        · simp [matchFields, hsk, hlk, ihv dv hv ha.1, ihr df h.2 ha.2]
      | null => simp [allExprLeaves] at hv
      | bool b => simp [allExprLeaves] at hv
      | int n => simp [allExprLeaves] at hv
      | arr items => simp [allExprLeaves] at hv

theorem isMatchConverter_of_allExpr :
    ∀ fs, ∀ df, allExprLeavesFields fs = true → alignedFields fs df = true →
      isMatchConverter fs df = true := by
  refine allExprLeavesFields.induct
    (fun t => ∀ tf df, t = JValue.obj tf → allExprLeaves t = true →
      sameKeyStructure t (JValue.obj df) = true → isMatchConverter tf df = true)
    (fun fs => ∀ df, allExprLeavesFields fs = true → alignedFields fs df = true →
      isMatchConverter fs df = true)
    ?_ ?_ ?_ ?_ ?_
  · intro s tf df heq _ _
    exact absurd heq (by simp)
  · intro fields ih tf df heq h hsk
    cases heq
    simp only [allExprLeaves] at h
    simp only [sameKeyStructure, Bool.and_eq_true] at hsk
    exact ih df h hsk.2
  · intro t h1 h2 tf df heq h hsk
    cases t <;> simp [allExprLeaves] at h <;> simp_all
  · intro df _ _
    simp [isMatchConverter]
  · intro k v rest ihv ihr df h ha
    simp only [allExprLeavesFields, Bool.and_eq_true] at h
    simp only [alignedFields, Bool.and_eq_true] at ha
    cases v with
    | str s =>
      have hv : isConvSkippable (JValue.str s) = true := by
        simpa [allExprLeaves] using h.1
      simp [isMatchConverter, hv, ihr df h.2 ha.2]
    | obj tf2 =>
      have hns : isConvSkippable (JValue.obj tf2) = false := by
        simp [isConvSkippable]
      rcases hlk : lookupField df k with _ | dv <;> rw [hlk] at ha
      · simp at ha
      · have hsk2 := ha.1
        cases dv <;> simp [sameKeyStructure] at hsk2
        rename_i df2
        have := ihv tf2 df2 rfl h.1 (by
          simpa [sameKeyStructure] using hsk2)
        simp [isMatchConverter, hns, hlk, this, ihr df h.2 ha.2]
    | null => simp [allExprLeaves] at h
    | bool b => simp [allExprLeaves] at h
    | int n => simp [allExprLeaves] at h
    | arr items => simp [allExprLeaves] at h

/-- C3: a template whose every leaf is an expression string matches any
data object with the same key structure, regardless of the scalar values in
the data — both for the structural matcher of `matcher.py` and for the
`_is_match` of `converter.py`. -/
theorem allExpr_template_matches (tf df : List (String × JValue))
    (h1 : allExprLeaves (JValue.obj tf) = true)
    (h2 : sameKeyStructure (JValue.obj tf) (JValue.obj df) = true) :
    isMatchMatcher (JValue.obj tf) (JValue.obj df) = true
      ∧ isMatchConverter tf df = true := by
  constructor
  · unfold isMatchMatcher
    rw [clean_of_allExpr _ h1]
    exact recursiveMatch_of_allExpr _ _ h1 h2
  · have h1f : allExprLeavesFields tf = true := by
      simpa [allExprLeaves] using h1
    have h2f : alignedFields tf df = true := by
      simp only [sameKeyStructure, Bool.and_eq_true] at h2
      exact h2.2
    exact isMatchConverter_of_allExpr tf df h1f h2f

/-- C3 witness instantiation: a two-level all-expression template against
data with the same keys in a different order and arbitrary scalar values. -/
theorem allExpr_template_matches_witness :
    (allExprLeaves (JValue.obj
        [("a", JValue.str "\x7b\x7bx\x7d\x7d"),
          ("b", JValue.obj [("c", JValue.str "\x7b\x7by\x7d\x7d")])]) = true
      ∧ sameKeyStructure
          (JValue.obj [("a", JValue.str "\x7b\x7bx\x7d\x7d"),
            ("b", JValue.obj [("c", JValue.str "\x7b\x7by\x7d\x7d")])])
          (JValue.obj [("b", JValue.obj [("c", JValue.int 5)]),
            ("a", JValue.null)]) = true)
    ∧ isMatchMatcher
        (JValue.obj [("a", JValue.str "\x7b\x7bx\x7d\x7d"),
          ("b", JValue.obj [("c", JValue.str "\x7b\x7by\x7d\x7d")])])
        (JValue.obj [("b", JValue.obj [("c", JValue.int 5)]),
          ("a", JValue.null)]) = true
    ∧ isMatchConverter
        [("a", JValue.str "\x7b\x7bx\x7d\x7d"),
          ("b", JValue.obj [("c", JValue.str "\x7b\x7by\x7d\x7d")])]
        [("b", JValue.obj [("c", JValue.int 5)]), ("a", JValue.null)] = true := by
  have h1 : allExprLeaves (JValue.obj
      [("a", JValue.str "\x7b\x7bx\x7d\x7d"),
        ("b", JValue.obj [("c", JValue.str "\x7b\x7by\x7d\x7d")])]) = true := by
    simp [allExprLeaves, allExprLeavesFields, isConvSkippable, pyStartsWith,
      pyEndsWith, pyStrip, stripChars, pyIsSpace, chStartsWith]
  have h2 : sameKeyStructure
      (JValue.obj [("a", JValue.str "\x7b\x7bx\x7d\x7d"),
        ("b", JValue.obj [("c", JValue.str "\x7b\x7by\x7d\x7d")])])
      (JValue.obj [("b", JValue.obj [("c", JValue.int 5)]),
        ("a", JValue.null)]) = true := by
    simp [sameKeyStructure, alignedFields, lookupField]
  have hmain := allExpr_template_matches _ _ h1 h2
  exact ⟨⟨h1, h2⟩, hmain.1, hmain.2⟩

theorem firstMatchId_append (l1 l2 : List ProtocolTemplate)
    (d : List (String × JValue))
    (h : ∀ q ∈ l1, isMatchConverter q.template_content d = false) :
    firstMatchId (l1 ++ l2) d = firstMatchId l2 d := by
  induction l1 with
  | nil => rfl
  | cons q rest ih =>
    have hq := h q (List.mem_cons_self _ _)
    simp only [List.cons_append, firstMatchId, hq, Bool.false_eq_true, if_false]
    exact ih fun r hr => h r (List.mem_cons_of_mem _ hr)

/-- C10: `match_protocol` inspects only the templates registered with the
requested family (restricting the registry to that family does not change
the result), and when the registry is `pre ++ p :: post` with `p` of the
requested family matching the input and no earlier-registered template of
the family matching, the result is exactly `p`'s id — registration order
alone decides; no scoring is applied and later-registered matching
templates are never selected. -/
theorem matchProtocol_first_registered
    (protocols pre post : List ProtocolTemplate) (p : ProtocolTemplate)
    (family : String) (data : List (String × JValue)) :
    (matchProtocol protocols family data
      = matchProtocol (familyProtocols protocols family) family data)
    ∧ (protocols = pre ++ p :: post →
        p.protocol_family = family →
        isMatchConverter p.template_content data = true →
        (∀ q ∈ pre, q.protocol_family = family →
          isMatchConverter q.template_content data = false) →
        matchProtocol protocols family data = some p.protocol_id) := by
  constructor
  · unfold matchProtocol familyProtocols
    rw [List.filter_filter]
    simp
  · intro heq hfam hmatch hpre
    subst heq
    unfold matchProtocol familyProtocols
    rw [List.filter_append, List.filter_cons_of_pos (by simp [hfam])]
    rw [firstMatchId_append _ _ _ (by
      intro q hq
      rw [List.mem_filter] at hq
      exact hpre q hq.1 (by simpa using hq.2))]
    simp [firstMatchId, hmatch]

/-- C10 witness instantiation: three same-family templates where the first
does not match, the second does, and a later one also matches; the second
one's id is returned. -/
theorem matchProtocol_first_registered_witness :
    ((⟨"A-1", "A", [("foo", JValue.str "x")], [], [], []⟩ : ProtocolTemplate).protocol_family = "A"
      → True)
    ∧ matchProtocol
        [⟨"A-1", "A", [("foo", JValue.str "x")], [], [], []⟩,
          ⟨"A-2", "A", [("action", JValue.str "DIAL")], [], [], []⟩,
          ⟨"A-3", "A", [("action", JValue.str "DIAL")], [], [], []⟩]
        "A" [("action", JValue.str "CALL")] = some "A-2" := by
  refine ⟨fun _ => trivial, ?_⟩
  have h := (matchProtocol_first_registered
    [⟨"A-1", "A", [("foo", JValue.str "x")], [], [], []⟩,
      ⟨"A-2", "A", [("action", JValue.str "DIAL")], [], [], []⟩,
      ⟨"A-3", "A", [("action", JValue.str "DIAL")], [], [], []⟩]
    [⟨"A-1", "A", [("foo", JValue.str "x")], [], [], []⟩]
    [⟨"A-3", "A", [("action", JValue.str "DIAL")], [], [], []⟩]
    ⟨"A-2", "A", [("action", JValue.str "DIAL")], [], [], []⟩
    "A" [("action", JValue.str "CALL")]).2
  refine h rfl rfl ?_ ?_
  · simp [isMatchConverter, isConvSkippable, lookupField, pyStrip, stripChars,
      pyIsSpace, pyStartsWith, pyEndsWith, chStartsWith]
  · intro q hq _
    have : q = ⟨"A-1", "A", [("foo", JValue.str "x")], [], [], []⟩ := by
      simpa using hq
    subst this
    simp [isMatchConverter, isConvSkippable, lookupField, pyStrip, stripChars,
      pyIsSpace, pyStartsWith, pyEndsWith, chStartsWith]

theorem pySplitChars_ne_nil (sep : Char) (cs : List Char) :
    pySplitChars sep cs ≠ [] := by
  induction cs with
  | nil => simp [pySplitChars]
  | cons c rest ih =>
    by_cases h : c = sep
    · simp [pySplitChars, h]
    · simp only [pySplitChars, if_neg h]
      rcases hsp : pySplitChars sep rest with _ | ⟨head, tail⟩
      · simp
      · simp

theorem getLastD_irrel {α : Type} (l : List α) (a b : α) (h : l ≠ []) :
    l.getLastD a = l.getLastD b := by
  cases l with
  | nil => exact absurd rfl h
  | cons x xs => simp only [List.getLastD_cons]

theorem pySplitChars_no_sep (sep : Char) (cs : List Char) (h : sep ∉ cs) :
    pySplitChars sep cs = [cs] := by
  induction cs with
  | nil => rfl
  | cons c rest ih =>
    simp only [List.mem_cons, not_or] at h
    have hc : ¬ c = sep := fun hh => h.1 hh.symm
    simp only [pySplitChars, if_neg hc, ih h.2]

theorem pySplitChars_mem_two (sep : Char) :
    ∀ cs : List Char, sep ∈ cs → 2 ≤ (pySplitChars sep cs).length := by
  intro cs
  induction cs with
  | nil => simp
  | cons c rest ih =>
    intro h
    by_cases hc : c = sep
    · subst hc
      simp only [pySplitChars, eq_self_iff_true, if_true, List.length_cons]
      have h1 : 0 < (pySplitChars c rest).length :=
        List.length_pos.mpr (pySplitChars_ne_nil c rest)
      omega
    · have hmem : sep ∈ rest := by
        rcases List.mem_cons.mp h with h1 | h2
        · exact absurd h1.symm hc
        · exact h2
      simp only [pySplitChars, if_neg hc]
      rcases hsp : pySplitChars sep rest with _ | ⟨head, tail⟩
      · exact absurd hsp (pySplitChars_ne_nil _ _)
      · have h2 := ih hmem
        rw [hsp] at h2
        simpa using h2

theorem pySplitChars_last (sep : Char) :
    ∀ (xs ys : List Char), sep ∉ ys →
      (pySplitChars sep (xs ++ sep :: ys)).getLastD [] = ys := by
  intro xs
  induction xs with
  | nil =>
    intro ys hy
    simp only [List.nil_append, pySplitChars, eq_self_iff_true, if_true]
    rw [List.getLastD_cons, pySplitChars_no_sep sep ys hy]
    rfl
  | cons x rest ih =>
    intro ys hy
    by_cases hx : x = sep
    · subst hx
      simp only [List.cons_append, pySplitChars, eq_self_iff_true, if_true]
      rw [List.getLastD_cons]
      rw [getLastD_irrel _ _ [] (pySplitChars_ne_nil _ _)]
      exact ih ys hy
    · simp only [List.cons_append, pySplitChars, if_neg hx]
      rcases hsp : pySplitChars sep (rest ++ sep :: ys) with _ | ⟨head, tail⟩
      · exact absurd hsp (pySplitChars_ne_nil _ _)
      · cases tail with
        | nil =>
          have h2 := pySplitChars_mem_two sep (rest ++ sep :: ys) (by simp)
          rw [hsp] at h2
          simp at h2
        | cons t ts =>
          rw [List.getLastD_cons]
          have hih := ih ys hy
          rw [hsp, List.getLastD_cons] at hih
          rw [getLastD_irrel _ _ head (by simp)]
          exact hih

theorem getLastD_map_mk : ∀ (l : List (List Char)) (d : List Char),
    (l.map String.mk).getLastD (String.mk d) = String.mk (l.getLastD d) := by
  intro l
  induction l with
  | nil => intro d; rfl
  | cons x xs ih =>
    intro d
    simp only [List.map_cons, List.getLastD_cons]
    exact ih x

theorem pySplit_last (famStr n : String) (h : ('-' : Char) ∉ n.data) :
    (pySplit (famStr ++ "-" ++ n) '-').getLastD "" = n := by
  unfold pySplit
  have hdata : (famStr ++ "-" ++ n).data = famStr.data ++ '-' :: n.data := by
    show famStr.data ++ "-".data ++ n.data = famStr.data ++ '-' :: n.data
    simp
  rw [hdata]
  rw [show ("" : String) = String.mk [] from rfl, getLastD_map_mk,
    pySplitChars_last '-' famStr.data n.data h]

theorem firstMatchId_mem (l : List ProtocolTemplate)
    (d : List (String × JValue)) (mid : String)
    (h : firstMatchId l d = some mid) : ∃ p ∈ l, p.protocol_id = mid := by
  induction l with
  | nil => simp [firstMatchId] at h
  | cons p rest ih =>
    simp only [firstMatchId] at h
    split at h
    · cases h
      exact ⟨p, List.mem_cons_self _ _, rfl⟩
    · obtain ⟨q, hq, hid⟩ := ih h
      exact ⟨q, List.mem_cons_of_mem _ hq, hid⟩

theorem getProtocol_isSome_of_mem (protocols : List ProtocolTemplate)
    (p : ProtocolTemplate) (hp : p ∈ protocols) :
    ∃ q, getProtocol protocols p.protocol_id = some q := by
  induction protocols with
  | nil => simp at hp
  | cons r rest ih =>
    by_cases h : r.protocol_id = p.protocol_id
    · exact ⟨r, by simp [getProtocol, h]⟩
    · rcases List.mem_cons.mp hp with h1 | h2
      · exact absurd (by rw [h1]) h
      · obtain ⟨q, hq⟩ := ih h2
        exact ⟨q, by simp [getProtocol, h, hq]⟩

theorem matchProtocol_getProtocol (protocols : List ProtocolTemplate)
    (family mid : String) (data : List (String × JValue))
    (h : matchProtocol protocols family data = some mid) :
    ∃ q, getProtocol protocols mid = some q := by
  unfold matchProtocol at h
  obtain ⟨p, hp, hid⟩ := firstMatchId_mem _ _ _ h
  have hmem : p ∈ protocols := List.mem_of_mem_filter hp
  subst hid
  exact getProtocol_isSome_of_mem protocols p hmem

/-- C7: for a matched source id of the form `<family>-<n>` (with a dash-free
suffix `n`), the derived target id is `<target_family>-<n>` and it is looked
up in the registry; when no template with that id is registered, `convert`
returns a failed result with the no-corresponding-target error instead of
rendering. -/
theorem convert_no_corresponding_target
    (extractVars : List (String × JValue) → List (String × JValue) →
      List ArrayMarker → List (String × JValue))
    (render : List (String × JValue) → List (String × JValue) → String →
      String → List (String × JValue) → List ArrayMarker → JValue)
    (protocols : List ProtocolTemplate)
    (sourceFamily targetFamily famPart n mid : String)
    (data : List (String × JValue))
    (hmatch : matchProtocol protocols sourceFamily data = some mid)
    (hform : mid = famPart ++ "-" ++ n)
    (hn : ('-' : Char) ∉ n.data)
    (habsent : getProtocol protocols (targetFamily ++ "-" ++ n) = none) :
    findTargetProtocol protocols targetFamily mid
      = getProtocol protocols (targetFamily ++ "-" ++ n)
    ∧ convert extractVars render protocols sourceFamily targetFamily data
      = { success := false,
          error := some ("No corresponding target protocol found for " ++ mid) } := by
  have hderive : findTargetProtocol protocols targetFamily mid
      = getProtocol protocols (targetFamily ++ "-" ++ n) := by
    unfold findTargetProtocol
    rw [hform, pySplit_last famPart n hn]
  refine ⟨hderive, ?_⟩
  obtain ⟨srcT, hsrc⟩ := matchProtocol_getProtocol protocols sourceFamily mid data hmatch
  unfold convert
  rw [hmatch]
  simp only [hsrc, hderive, habsent]

/-- C7 witness instantiation: a registry holding only `A-4`; converting to
family `B` derives `B-4`, which is absent, so conversion fails with the
no-corresponding-target error. -/
theorem convert_no_corresponding_target_witness :
    matchProtocol [⟨"A-4", "A", [("action", JValue.str "DIAL")], [], [], []⟩]
        "A" [("action", JValue.str "X")] = some "A-4"
    ∧ convert (fun _ _ _ => []) (fun _ _ _ _ _ _ => JValue.null)
        [⟨"A-4", "A", [("action", JValue.str "DIAL")], [], [], []⟩]
        "A" "B" [("action", JValue.str "X")]
      = { success := false,
          error := some ("No corresponding target protocol found for " ++ "A-4") } := by
  have hmatch : matchProtocol
      [⟨"A-4", "A", [("action", JValue.str "DIAL")], [], [], []⟩]
      "A" [("action", JValue.str "X")] = some "A-4" := by
    simp [matchProtocol, familyProtocols, firstMatchId, isMatchConverter,
      isConvSkippable, lookupField, pyStrip, stripChars, pyIsSpace,
      pyStartsWith, pyEndsWith, chStartsWith]
  refine ⟨hmatch, ?_⟩
  exact (convert_no_corresponding_target (fun _ _ _ => [])
    (fun _ _ _ _ _ _ => JValue.null)
    [⟨"A-4", "A", [("action", JValue.str "DIAL")], [], [], []⟩]
    "A" "B" "A" "4" "A-4" [("action", JValue.str "X")]
    hmatch rfl (by decide) rfl).2

/-- C5 counterexample: a set through a wildcard path does not fail at all.
On the empty object, setting `a[*]` succeeds (creating the intermediate
empty list and writing nothing), and on a concrete list, setting the path
`[*]` succeeds and returns the data unchanged. -/
theorem setValue_wildcard_counterexample :
    setValue [PathSegment.objectKey "a" false, PathSegment.arrayWildcard]
        (JValue.obj []) (JValue.int 1)
      = Except.ok (JValue.obj [("a", JValue.arr [])])
    ∧ setValue [PathSegment.arrayWildcard] (JValue.arr [JValue.int 7])
        (JValue.int 9)
      = Except.ok (JValue.arr [JValue.int 7]) := by
  constructor
  · simp [setValue, setFinal, lookupField, isIndexLike, setField]
  · rfl

theorem validationScore_invalid_lt_one (vr : ValidationResult)
    (hinv : vr.is_valid = true ↔ vr.errors = [])
    (h : vr.is_valid = false) : validationScore vr < 1 := by
  have herr : vr.errors ≠ [] := by
    intro he
    rw [hinv.mpr he] at h
    exact Bool.noConfusion h
  have hlen : 1 ≤ (vr.errors.length : ℚ) := by
    have h1 : 1 ≤ vr.errors.length := List.length_pos.mpr herr
    exact_mod_cast h1
  unfold validationScore
  rw [h]
  simp only [Bool.false_eq_true, if_false]
  have hmin : (1 : ℚ)/5 ≤ min ((vr.errors.length : ℚ) * (2/10)) 1 := by
    apply le_min
    · linarith
    · norm_num
  have hle : (1 : ℚ) - min ((vr.errors.length : ℚ) * (2/10)) 1 ≤ 4/5 := by
    linarith
  calc max 0 (1 - min ((vr.errors.length : ℚ) * (2/10)) 1)
      ≤ max 0 (4/5) := max_le_max le_rfl hle
    _ < 1 := by norm_num

theorem validationScore_eq_valid (vr1 vr2 : ValidationResult)
    (hinv1 : vr1.is_valid = true ↔ vr1.errors = [])
    (hinv2 : vr2.is_valid = true ↔ vr2.errors = [])
    (hv : validationScore vr1 = validationScore vr2) :
    vr1.is_valid = vr2.is_valid := by
  cases h1 : vr1.is_valid <;> cases h2 : vr2.is_valid <;> try rfl
  · have hlt := validationScore_invalid_lt_one vr1 hinv1 h1
    rw [hv] at hlt
    unfold validationScore at hlt
    rw [h2] at hlt
    simp at hlt
  · have hlt := validationScore_invalid_lt_one vr2 hinv2 h2
    rw [← hv] at hlt
    unfold validationScore at hlt
    rw [h1] at hlt
    simp at hlt

/-- C8: under every selection strategy, for two evaluations that agree on
the validation sub-score and the variable-completeness sub-score (with the
`validate_data` invariant `is_valid = (errors == [])`), the evaluation with
the larger path-coverage sub-score receives a final score that is at least
the other's. -/
theorem scorer_pathCoverage_monotone (strategy : MatchStrategy)
    (vr1 vr2 : ValidationResult) (pc1 pc2 vc : ℚ)
    (hinv1 : vr1.is_valid = true ↔ vr1.errors = [])
    (hinv2 : vr2.is_valid = true ↔ vr2.errors = [])
    (hv : validationScore vr1 = validationScore vr2)
    (hpc : pc2 ≤ pc1) :
    finalScore strategy defaultScoreWeights vr2 pc2 vc
      ≤ finalScore strategy defaultScoreWeights vr1 pc1 vc := by
  have hvalid : vr1.is_valid = vr2.is_valid :=
    validationScore_eq_valid vr1 vr2 hinv1 hinv2 hv
  simp only [finalScore, defaultScoreWeights]
  refine max_le_max le_rfl (min_le_min le_rfl ?_)
  cases strategy with
  | strict =>
    cases h2 : vr2.is_valid with
    | false =>
      rw [hvalid, h2]
      simp
    | true =>
      rw [hvalid, h2]
      simp only [Bool.true_eq_false, if_false]
      rw [hv]
      have hterm : pc2 * (3/10) ≤ pc1 * (3/10) :=
        mul_le_mul_of_nonneg_right hpc (by norm_num)
      linarith
  | lenient =>
    rw [hv]
    have hterm : pc2 * (5/10) ≤ pc1 * (5/10) :=
      mul_le_mul_of_nonneg_right hpc (by norm_num)
    linarith
  | best_effort =>
    rw [hv]
    have hterm : pc2 * (3/10) ≤ pc1 * (3/10) :=
      mul_le_mul_of_nonneg_right hpc (by norm_num)
    linarith

/-- C8 witness instantiation: a valid evaluation under the STRICT strategy
with path coverage 1 versus 1/2, other sub-scores fixed. -/
theorem scorer_pathCoverage_monotone_witness :
    ((⟨true, [], [], [], []⟩ : ValidationResult).is_valid = true
        ↔ (⟨true, [], [], [], []⟩ : ValidationResult).errors = [])
    ∧ ((1/2 : ℚ) ≤ 1)
    ∧ finalScore MatchStrategy.strict defaultScoreWeights
        ⟨true, [], [], [], []⟩ (1/2) 1
      ≤ finalScore MatchStrategy.strict defaultScoreWeights
        ⟨true, [], [], [], []⟩ 1 1 := by
  refine ⟨by simp, by norm_num, ?_⟩
  exact scorer_pathCoverage_monotone MatchStrategy.strict
    ⟨true, [], [], [], []⟩ ⟨true, [], [], [], []⟩ 1 (1/2) 1
    (by simp) (by simp) rfl (by norm_num)

theorem pySplitAnyChars_no_sep (seps : List Char) (cs : List Char)
    (h : ∀ c ∈ cs, c ∉ seps) : pySplitAnyChars seps cs = [cs] := by
  induction cs with
  | nil => rfl
  | cons c rest ih =>
    have hc : c ∉ seps := h c (List.mem_cons_self _ _)
    simp only [pySplitAnyChars, if_neg hc,
      ih fun d hd => h d (List.mem_cons_of_mem _ hd)]

theorem pySplitAnyChars_single_sep (seps : List Char) (sep : Char)
    (hsep : sep ∈ seps) :
    ∀ xs ys : List Char, (∀ c ∈ xs, c ∉ seps) → (∀ c ∈ ys, c ∉ seps) →
      pySplitAnyChars seps (xs ++ sep :: ys) = [[], ys].set 0 xs := by
  intro xs
  induction xs with
  | nil =>
    intro ys _ hy
    simp only [List.nil_append, pySplitAnyChars, if_pos hsep]
    rw [pySplitAnyChars_no_sep seps ys hy]
    rfl
  | cons x rest ih =>
    intro ys hx hy
    have hxs : x ∉ seps := hx x (List.mem_cons_self _ _)
    simp only [List.cons_append, pySplitAnyChars, if_neg hxs, List.append_eq]
    rw [ih ys (fun c hc => hx c (List.mem_cons_of_mem _ hc)) hy]
    rfl

/-- C9 (amended): the split/combine round trip holds for
`<road1>与<road2>` exactly when both roads are nonempty, contain none of
the separator characters `与`, `和`, `及`, and carry no leading or trailing
whitespace (the stored parts are stripped). -/
theorem combineSplit_roundtrip (r1 r2 : String)
    (h1 : r1 ≠ "") (h2 : r2 ≠ "")
    (hsep1 : ∀ c ∈ r1.data, c ∉ intersectionSeps)
    (hsep2 : ∀ c ∈ r2.data, c ∉ intersectionSeps)
    (hstrip1 : pyStrip r1 = r1) (hstrip2 : pyStrip r2 = r2) :
    combineSplitRoundTrip (r1 ++ "与" ++ r2) = r1 ++ "与" ++ r2 := by
  have hdata : (r1 ++ "与" ++ r2).data = r1.data ++ '与' :: r2.data := by
    show r1.data ++ "与".data ++ r2.data = r1.data ++ '与' :: r2.data
    simp
  have hsplit : splitIntersection (r1 ++ "与" ++ r2) = [r1, r2] := by
    unfold splitIntersection
    rw [hdata, pySplitAnyChars_single_sep intersectionSeps '与'
      (by simp [intersectionSeps]) r1.data r2.data hsep1 hsep2]
    simp only [List.set, List.map, List.length_cons, List.length_nil]
    rw [if_pos (by norm_num)]
    show [pyStrip (String.mk r1.data), pyStrip (String.mk r2.data)] = [r1, r2]
    rw [show String.mk r1.data = r1 from rfl, show String.mk r2.data = r2 from rfl,
      hstrip1, hstrip2]
  unfold combineSplitRoundTrip
  rw [hsplit]
  show combineIntersection r1 r2 = r1 ++ "与" ++ r2
  unfold combineIntersection
  rw [if_pos ⟨h1, h2⟩]

/-- C9 witness instantiation: two plain road names. -/
theorem combineSplit_roundtrip_witness :
    (("中山路" : String) ≠ "" ∧ ("北京路" : String) ≠ ""
      ∧ (∀ c ∈ ("中山路" : String).data, c ∉ intersectionSeps)
      ∧ pyStrip "中山路" = "中山路")
    ∧ combineSplitRoundTrip ("中山路" ++ "与" ++ "北京路")
        = "中山路" ++ "与" ++ "北京路" := by
  refine ⟨⟨by decide, by decide, by decide, by decide⟩, ?_⟩
  exact combineSplit_roundtrip "中山路" "北京路" (by decide) (by decide)
    (by decide) (by decide) (by decide) (by decide)

/-- C9 counterexample: the round trip fails as stated for roads containing
another separator character (`a和b` 与 `c` collapses to `a与b`), for roads
with surrounding whitespace (`a ` 与 ` b` collapses to `a与b`), for roads
with surrounding Unicode whitespace stripped by Python's `str.strip()`
(`a` 与 `　b` collapses to `a与b`), and for an empty second road
(`a` 与 `` collapses to `a`). -/
theorem combineSplit_roundtrip_counterexample :
    (combineSplitRoundTrip "a和b与c" = "a与b" ∧ "a与b" ≠ "a和b与c")
    ∧ (combineSplitRoundTrip "a 与 b" = "a与b" ∧ "a与b" ≠ "a 与 b")
    ∧ (combineSplitRoundTrip "a与　b" = "a与b" ∧ "a与b" ≠ "a与　b")
    ∧ (combineSplitRoundTrip "a与" = "a" ∧ "a" ≠ "a与") := by
  refine ⟨⟨by decide, by decide⟩, ⟨by decide, by decide⟩,
    ⟨by decide, by decide⟩, ⟨by decide, by decide⟩⟩

/-- Helper for C6: `_render_dict` preserves the whole context except possibly
`current_path` (in particular `render_depth` is restored on every branch).
Proved by the functional induction of the mutual recursion. -/
theorem renderDict_strip (r : Renderer) :
    ∀ (fields : List (String × JValue)) (ctx : ConversionContext),
      stripPath ((renderDict r fields ctx).2) = stripPath ctx := by
  refine renderDict.induct r
    (fun fields ctx => stripPath ((renderDict r fields ctx).2) = stripPath ctx)
    (fun items ctx => stripPath ((renderList r items ctx).2) = stripPath ctx)
    ?_ ?_ ?_ ?_ ?_ ?_ ?_ ?_ ?_ ?_
  all_goals intros
  all_goals try (simp only [renderDict, renderList]; try rfl)
  all_goals try (rename_i ih; rw [ih])
  case refine_3 =>
    rename_i k0 rst0 ctx flds old ctx1 p ctx2 ih1 ih2
    have hp : stripPath p.2 = stripPath ctx1 := ih1
    have hd0 := congrArg ConversionContext.render_depth hp
    have hd : p.2.render_depth = ctx.render_depth + 1 := hd0
    have h2 : stripPath ctx2 =
        { stripPath p.2 with render_depth := p.2.render_depth - 1 } := rfl
    have h3 : ctx.render_depth + 1 - 1 = ctx.render_depth := by omega
    rw [h2, hp, hd, h3]
    rfl
  case refine_4 =>
    rename_i ctx1 p ih1 ih2
    have hp : stripPath p.2 = stripPath ctx1 := ih1
    rw [hp]
    rfl
  case refine_8 =>
    rename_i rst0 ctx flds ctx1 p ctx2 ih1 ih2
    have hp : stripPath p.2 = stripPath ctx1 := ih1
    have hd0 := congrArg ConversionContext.render_depth hp
    have hd : p.2.render_depth = ctx.render_depth + 1 := hd0
    have h2 : stripPath ctx2 =
        { stripPath p.2 with render_depth := p.2.render_depth - 1 } := rfl
    have h3 : ctx.render_depth + 1 - 1 = ctx.render_depth := by omega
    rw [h2, hp, hd, h3]
    rfl
  case refine_9 =>
    rename_i rst0 ctx itms ctx1 p ctx2 ih1 ih2
    have hp : stripPath p.2 = stripPath ctx1 := ih1
    have hd0 := congrArg ConversionContext.render_depth hp
    have hd : p.2.render_depth = ctx.render_depth + 1 := hd0
    have h2 : stripPath ctx2 =
        { stripPath p.2 with render_depth := p.2.render_depth - 1 } := rfl
    have h3 : ctx.render_depth + 1 - 1 = ctx.render_depth := by omega
    rw [h2, hp, hd, h3]
    rfl

/-- Helper for C6: the same preservation for `_render_list`. -/
theorem renderList_strip (r : Renderer) :
    ∀ (items : List JValue) (ctx : ConversionContext),
      stripPath ((renderList r items ctx).2) = stripPath ctx := by
  refine renderList.induct r
    (fun fields ctx => stripPath ((renderDict r fields ctx).2) = stripPath ctx)
    (fun items ctx => stripPath ((renderList r items ctx).2) = stripPath ctx)
    ?_ ?_ ?_ ?_ ?_ ?_ ?_ ?_ ?_ ?_
  all_goals intros
  all_goals try (simp only [renderDict, renderList]; try rfl)
  all_goals try (rename_i ih; rw [ih])
  case refine_3 =>
    rename_i k0 rst0 ctx flds old ctx1 p ctx2 ih1 ih2
    have hp : stripPath p.2 = stripPath ctx1 := ih1
    have hd0 := congrArg ConversionContext.render_depth hp
    have hd : p.2.render_depth = ctx.render_depth + 1 := hd0
    have h2 : stripPath ctx2 =
        { stripPath p.2 with render_depth := p.2.render_depth - 1 } := rfl
    have h3 : ctx.render_depth + 1 - 1 = ctx.render_depth := by omega
    rw [h2, hp, hd, h3]
    rfl
  case refine_4 =>
    rename_i ctx1 p ih1 ih2
    have hp : stripPath p.2 = stripPath ctx1 := ih1
    rw [hp]
    rfl
  case refine_8 =>
    rename_i rst0 ctx flds ctx1 p ctx2 ih1 ih2
    have hp : stripPath p.2 = stripPath ctx1 := ih1
    have hd0 := congrArg ConversionContext.render_depth hp
    have hd : p.2.render_depth = ctx.render_depth + 1 := hd0
    have h2 : stripPath ctx2 =
        { stripPath p.2 with render_depth := p.2.render_depth - 1 } := rfl
    have h3 : ctx.render_depth + 1 - 1 = ctx.render_depth := by omega
    rw [h2, hp, hd, h3]
    rfl
  case refine_9 =>
    rename_i rst0 ctx itms ctx1 p ctx2 ih1 ih2
    have hp : stripPath p.2 = stripPath ctx1 := ih1
    have hd0 := congrArg ConversionContext.render_depth hp
    have hd : p.2.render_depth = ctx.render_depth + 1 := hd0
    have h2 : stripPath ctx2 =
        { stripPath p.2 with render_depth := p.2.render_depth - 1 } := rfl
    have h3 : ctx.render_depth + 1 - 1 = ctx.render_depth := by omega
    rw [h2, hp, hd, h3]
    rfl

/-- C6 (amended): rendering never changes any field of the caller's context
except `current_path`: after `_render_dict` or `_render_list` the context
agrees with the original on every field other than `current_path` (in
particular `render_depth` is restored).  `current_path` itself is NOT
always restored, because the list branch of `_render_dict` (renderer.py
lines 242-245) sets it without restoring it — see the counterexample. -/
theorem render_no_context_mutation (r : Renderer)
    (fields : List (String × JValue)) (items : List JValue)
    (ctx : ConversionContext) :
    stripPath ((renderDict r fields ctx).2) = stripPath ctx ∧
    stripPath ((renderList r items ctx).2) = stripPath ctx ∧
    ((renderDict r fields ctx).2).render_depth = ctx.render_depth ∧
    ((renderList r items ctx).2).render_depth = ctx.render_depth := by
  refine ⟨renderDict_strip r fields ctx, renderList_strip r items ctx, ?_, ?_⟩
  · have h := congrArg ConversionContext.render_depth (renderDict_strip r fields ctx)
    exact h
  · have h := congrArg ConversionContext.render_depth (renderList_strip r items ctx)
    exact h

/-- C6 counterexample: as stated the claim is false — `_render_dict` on a
dict with a list-valued key `k` leaves the caller's `current_path` set to
`k` instead of restoring the original `None`, because the list branch never
restores `old_path`. -/
theorem render_mutates_current_path_counterexample :
    cexCtx.current_path = none ∧
    (renderDict cexRenderer [("k", JValue.arr [])] cexCtx).2.current_path
      = some "k" := by
  constructor
  · rfl
  · simp [renderDict, renderList, joinPath, cexCtx, cexRenderer]

theorem takeWhile_append_all {p : Char → Bool} :
    ∀ (xs ys : List Char), (∀ c ∈ xs, p c = true) →
      (xs ++ ys).takeWhile p = xs ++ ys.takeWhile p := by
  intro xs ys h
  induction xs with
  | nil => simp
  | cons c cs ih =>
    have hc : p c = true := h c (List.mem_cons_self c cs)
    simp [List.takeWhile_cons, hc]
    exact ih (fun d hd => h d (List.mem_cons_of_mem c hd))

theorem wordChar_not_space {c : Char} (h : isWordChar c = true) :
    pyIsSpace c = false := by
  by_contra hs
  rw [Bool.not_eq_false] at hs
  simp [pyIsSpace] at hs
  repeat' rcases hs with hs | hs
  all_goals exact absurd h (by decide)

theorem wordChar_ne_open {c : Char} (h : isWordChar c = true) : c ≠ '\x7b' := by
  intro he
  subst he
  exact absurd h (by decide)

theorem wordChar_ne_close {c : Char} (h : isWordChar c = true) : c ≠ '\x7d' := by
  intro he
  subst he
  exact absurd h (by decide)

theorem matchOpen_cons_ne {c : Char} (cs : List Char) (h : ¬ c = '\x7b') :
    matchOpen (c :: cs) = none := by
  unfold matchOpen
  split
  · rename_i heq
    injection heq with h1 h2
    exact absurd h1 h
  · rfl

theorem matchOpen_two_ne {c : Char} (cs : List Char) (h : ¬ c = '\x7b') :
    matchOpen ('\x7b' :: c :: cs) = none := by
  unfold matchOpen
  split
  · rename_i heq
    injection heq with h1 h2
    injection h2 with h3 h4
    exact absurd h3 h
  · rfl

theorem matchDefaultQuoted_none_of_wordChar (cs : List Char)
    (h : ∀ c ∈ cs, isWordChar c = true) : matchDefaultQuoted cs = none := by
  unfold matchDefaultQuoted
  split
  · cases hd : cs.drop 7 with
    | nil => simp [hd]
    | cons c rest =>
      have hmem : c ∈ cs :=
        List.drop_subset 7 cs (hd ▸ List.mem_cons_self c rest)
      have hc : isWordChar c = true := h c hmem
      simp [hd, List.takeWhile_cons, wordChar_not_space hc]
  · rfl

theorem searchDefaultQuoted_none_of_wordChar (cs : List Char)
    (h : ∀ c ∈ cs, isWordChar c = true) : searchDefaultQuoted cs = none := by
  induction cs with
  | nil => rfl
  | cons c rest ih =>
    rw [searchDefaultQuoted]
    rw [matchDefaultQuoted_none_of_wordChar _ h]
    exact ih (fun d hd => h d (List.mem_cons_of_mem c hd))

theorem scanSub_id (try_ : List Char → Option (String × List Char)) :
    ∀ (cs : List Char) (fuel : Nat),
      (∀ n, try_ (cs.drop n) = none) → scanSub try_ fuel cs = cs := by
  intro cs
  induction cs with
  | nil =>
    intro fuel h
    cases fuel <;> rfl
  | cons c rest ih =>
    intro fuel h
    cases fuel with
    | zero => rfl
    | succ f =>
      rw [scanSub]
      have h0 : try_ (c :: rest) = none := h 0
      rw [h0]
      have htail : ∀ n, try_ (rest.drop n) = none := fun n => h (n + 1)
      rw [ih f htail]

theorem searchSpecial_none (cs : List Char)
    (h : ∀ n, matchSpecialAt (cs.drop n) = none) : searchSpecial cs = none := by
  induction cs with
  | nil => rfl
  | cons c rest ih =>
    rw [searchSpecial]
    have h0 : matchSpecialAt (c :: rest) = none := h 0
    rw [h0]
    exact ih (fun n => h (n + 1))

theorem matchDefaultBlock_no_open {cs : List Char} (h : matchOpen cs = none) :
    matchDefaultBlock cs = none := by
  unfold matchDefaultBlock
  rw [h]

theorem matchSpecialAt_no_open {cs : List Char} (h : matchOpen cs = none) :
    matchSpecialAt cs = none := by
  unfold matchSpecialAt
  rw [h]

theorem varBlock_drop_no_open (name : List Char) (hne : name ≠ [])
    (hw : ∀ c ∈ name, isWordChar c = true) :
    ∀ n, matchOpen ((varBlock name).drop (n + 1)) = none := by
  intro n
  match n with
  | 0 =>
    obtain ⟨c, name2, rfl⟩ : ∃ c name2, name = c :: name2 := by
      cases name with
      | nil => exact absurd rfl hne
      | cons a b => exact ⟨a, b, rfl⟩
    have hc : isWordChar c = true := hw c (List.mem_cons_self c name2)
    show matchOpen ('\x7b' :: (c :: name2 ++ ['\x7d', '\x7d'])) = none
    exact matchOpen_two_ne _ (wordChar_ne_open hc)
  | m + 1 =>
    show matchOpen ((name ++ ['\x7d', '\x7d']).drop m) = none
    cases hd : (name ++ ['\x7d', '\x7d']).drop m with
    | nil => rfl
    | cons c rest =>
      have hmem : c ∈ name ++ ['\x7d', '\x7d'] :=
        List.drop_subset m _ (hd ▸ List.mem_cons_self c rest)
      have hcne : ¬ c = '\x7b' := by
        rcases List.mem_append.mp hmem with hin | hin
        · exact wordChar_ne_open (hw c hin)
        · intro he
          subst he
          exact absurd hin (by decide)
      exact matchOpen_cons_ne rest hcne

theorem matchDefaultBlock_varBlock (name : List Char) (hne : name ≠ [])
    (hw : ∀ c ∈ name, isWordChar c = true) :
    matchDefaultBlock (varBlock name) = none := by
  obtain ⟨c, name2, rfl⟩ : ∃ c name2, name = c :: name2 := by
    cases name with
    | nil => exact absurd rfl hne
    | cons a b => exact ⟨a, b, rfl⟩
  have hp : ∀ d ∈ (c :: name2), (fun x => decide ¬(x = '\x7d')) d = true := by
    intro d hd
    simp
    exact wordChar_ne_close (hw d hd)
  have hp2 : ∀ d ∈ c :: name2, (fun x => decide (x ≠ '\x7d')) d = true := by
    intro d hd
    simp
    exact wordChar_ne_close (hw d hd)
  have hcontent : List.takeWhile (fun x => decide (x ≠ '\x7d'))
      ((c :: name2) ++ ['\x7d', '\x7d']) = c :: name2 := by
    rw [takeWhile_append_all _ _ hp2]
    simp [List.takeWhile_cons]
  have hcdq : containsDefaultQuoted (c :: name2) = false := by
    unfold containsDefaultQuoted
    rw [searchDefaultQuoted_none_of_wordChar _ hw]
    rfl
  show (if (List.takeWhile (fun x => decide (x ≠ '\x7d'))
        ((c :: name2) ++ ['\x7d', '\x7d'])).isEmpty = true then none
    else
      match List.drop (List.takeWhile (fun x => decide (x ≠ '\x7d'))
          ((c :: name2) ++ ['\x7d', '\x7d'])).length
          ((c :: name2) ++ ['\x7d', '\x7d']) with
      | '\x7d' :: '\x7d' :: rest2 =>
        if containsDefaultQuoted (List.takeWhile (fun x => decide (x ≠ '\x7d'))
            ((c :: name2) ++ ['\x7d', '\x7d'])) = true then
          some ("\x7b\x7b" ++ String.mk (rewriteDefaultSyntax
            (List.takeWhile (fun x => decide (x ≠ '\x7d'))
              ((c :: name2) ++ ['\x7d', '\x7d']))) ++ "\x7d\x7d", rest2)
        else none
      | _ => none) = none
  rw [hcontent, List.drop_left]
  simp [hcdq]

theorem matchSpecialAt_varBlock (name : List Char) (hne : name ≠ [])
    (hw : ∀ c ∈ name, isWordChar c = true)
    (hds : chStartsWith name ['_', '_'] = false) :
    matchSpecialAt (varBlock name) = none := by
  obtain ⟨c, name2, rfl⟩ : ∃ c name2, name = c :: name2 := by
    cases name with
    | nil => exact absurd rfl hne
    | cons a b => exact ⟨a, b, rfl⟩
  have hc : isWordChar c = true := hw c (List.mem_cons_self c name2)
  have hdrop : dropSpaces ((c :: name2) ++ ['\x7d', '\x7d']) =
      c :: (name2 ++ ['\x7d', '\x7d']) := by
    simp [dropSpaces, List.dropWhile_cons, wordChar_not_space hc]
  show (match dropSpaces ((c :: name2) ++ ['\x7d', '\x7d']) with
    | '_' :: '_' :: rest2 =>
      let w := rest2.takeWhile isWordChar
      if w.isEmpty then none
      else
        match dropSpaces (rest2.drop w.length) with
        | '\x7d' :: '\x7d' :: _ => some (String.mk w)
        | _ => none
    | _ => none) = none
  rw [hdrop]
  split
  · rename_i rest2 heq
    exfalso
    injection heq with h1 h2
    subst h1
    cases name2 with
    | nil =>
      injection h2 with h3 h4
      exact absurd h3 (by decide)
    | cons c2 name3 =>
      injection h2 with h3 h4
      subst h3
      simp [chStartsWith] at hds
  · rfl

theorem preprocessTemplate_varBlock (name : List Char) (hne : name ≠ [])
    (hw : ∀ c ∈ name, isWordChar c = true) :
    preprocessTemplate (String.mk (varBlock name)) = String.mk (varBlock name) := by
  have hpos : ∀ n, matchDefaultBlock ((varBlock name).drop n) = none := by
    intro n
    cases n with
    | zero => exact matchDefaultBlock_varBlock name hne hw
    | succ m => exact matchDefaultBlock_no_open (varBlock_drop_no_open name hne hw m)
  unfold preprocessTemplate
  rw [show (String.mk (varBlock name)).data = varBlock name from rfl]
  rw [scanSub_id _ _ _ hpos]

theorem searchSpecial_varBlock (name : List Char) (hne : name ≠ [])
    (hw : ∀ c ∈ name, isWordChar c = true)
    (hds : chStartsWith name ['_', '_'] = false) :
    searchSpecial (varBlock name) = none := by
  apply searchSpecial_none
  intro n
  cases n with
  | zero => exact matchSpecialAt_varBlock name hne hw hds
  | succ m => exact matchSpecialAt_no_open (varBlock_drop_no_open name hne hw m)

theorem jinjaRenderGo_varBlock (vars : List (String × JValue)) (name : List Char)
    (hne : name ≠ []) (hw : ∀ c ∈ name, isWordChar c = true)
    (hunb : lookupFn vars (String.mk name) = none) :
    ∀ fuel, jinjaRenderGo vars (fuel + 1) (varBlock name) = .ok [] := by
  intro fuel
  obtain ⟨c, name2, rfl⟩ : ∃ c name2, name = c :: name2 := by
    cases name with
    | nil => exact absurd rfl hne
    | cons a b => exact ⟨a, b, rfl⟩
  have hc : isWordChar c = true := hw c (List.mem_cons_self c name2)
  have hw2 : List.takeWhile isWordChar ((c :: name2) ++ ['\x7d', '\x7d']) =
      c :: name2 := by
    rw [takeWhile_append_all _ _ (fun d hd => hw d hd)]
    simp [List.takeWhile_cons, show isWordChar '\x7d' = false from by decide]
  have hdrop1 : dropSpaces ((c :: name2) ++ ['\x7d', '\x7d']) =
      (c :: name2) ++ ['\x7d', '\x7d'] := by
    simp [dropSpaces, List.dropWhile_cons, wordChar_not_space hc]
  have hnil : jinjaRenderGo vars fuel [] = Except.ok [] := by
    cases fuel <;> rfl
  show (let rest1 := dropSpaces ((c :: name2) ++ ['\x7d', '\x7d']);
    let w := rest1.takeWhile isWordChar;
    if w.isEmpty then Except.error ()
    else
      match dropSpaces (rest1.drop w.length) with
      | '\x7d' :: '\x7d' :: rest3 =>
        match jinjaRenderGo vars fuel rest3 with
        | .ok out =>
          let sub := match lookupFn vars (String.mk w) with
            | some v => (pyStr v).data
            | none => []
          .ok (sub ++ out)
        | .error e => .error e
      | _ => Except.error ()) = Except.ok []
  simp only [hdrop1, hw2]
  rw [show ((c :: name2) ++ ['\x7d', '\x7d']).drop (c :: name2).length =
    ['\x7d', '\x7d'] from List.drop_left _ _]
  rw [show dropSpaces ['\x7d', '\x7d'] = ['\x7d', '\x7d'] from rfl]
  simp only [List.isEmpty_cons, Bool.false_eq_true, if_false, hnil, hunb]
  rfl

theorem jinjaRender_varBlock (vars : List (String × JValue)) (name : List Char)
    (hne : name ≠ []) (hw : ∀ c ∈ name, isWordChar c = true)
    (hunb : lookupFn vars (String.mk name) = none) :
    jinjaRender vars (String.mk (varBlock name)) = Except.ok "" := by
  unfold jinjaRender
  rw [show (String.mk (varBlock name)).data = varBlock name from rfl]
  rw [show (varBlock name).length = (name.length + 3) + 1 from by
    simp [varBlock]]
  rw [jinjaRenderGo_varBlock vars name hne hw hunb (name.length + 3)]
  rfl

/-- C4 (amended): a Regular variable expression whose name is unbound in the
current bindings never throws, but Jinja2 renders it as the EMPTY string (the
default `Undefined`), not as a `[MISSING:name]` marker; the `[MISSING:name]`
marker is produced only by `_fallback_render`, which runs only when the
Jinja2 pass raises on a malformed template (second conjunct: a template with
a trailing unclosed `\x7b\x7b` takes the fallback path and renders its
unbound variable as `[MISSING:name]`). -/
theorem renderString_unbound_regular (r : Renderer) (ctx : ConversionContext)
    (name : List Char) (hne : name ≠ [])
    (hw : ∀ c ∈ name, isWordChar c = true)
    (hds : chStartsWith name ['_', '_'] = false)
    (hunb : lookupFn ctx.variables (String.mk name) = none) :
    renderString r (String.mk (varBlock name)) ctx = "" ∧
    renderString cexRenderer "\x7b\x7b name \x7d\x7d \x7b\x7b" cexCtx
      = "[MISSING:name] \x7b\x7b" := by
  constructor
  · show (match searchSpecial
        (preprocessTemplate (String.mk (varBlock name))).data with
      | some varName =>
        match lookupFn r.converter_functions ("func_" ++ varName) with
        | some f =>
          String.mk (subSpecialAll (pyStr (f ctx))
            (preprocessTemplate (String.mk (varBlock name))).data)
        | none =>
          match jinjaRender ctx.variables
              (preprocessTemplate (String.mk (varBlock name))) with
          | .ok out => out
          | .error _ =>
            fallbackRender r
              (preprocessTemplate (String.mk (varBlock name))) ctx
      | none =>
        match jinjaRender ctx.variables
            (preprocessTemplate (String.mk (varBlock name))) with
        | .ok out => out
        | .error _ =>
          fallbackRender r
            (preprocessTemplate (String.mk (varBlock name))) ctx) = ""
    rw [preprocessTemplate_varBlock name hne hw]
    rw [show (String.mk (varBlock name)).data = varBlock name from rfl]
    rw [searchSpecial_varBlock name hne hw hds]
    rw [jinjaRender_varBlock ctx.variables name hne hw hunb]
  · decide

theorem renderString_unbound_regular_witness :
    renderString cexRenderer (String.mk (varBlock ['n', 'a', 'm', 'e'])) cexCtx
      = "" ∧
    renderString cexRenderer "\x7b\x7b name \x7d\x7d \x7b\x7b" cexCtx
      = "[MISSING:name] \x7b\x7b" :=
  renderString_unbound_regular cexRenderer cexCtx ['n', 'a', 'm', 'e']
    (by decide) (by decide) (by decide) rfl

/-- C4 counterexample: as stated the claim is false — rendering the template
`\x7b\x7bname\x7d\x7d` with `name` unbound yields the empty string, which
does not contain the `[MISSING:name]` marker. -/
theorem renderString_unbound_counterexample :
    renderString cexRenderer (String.mk (varBlock ['n', 'a', 'm', 'e'])) cexCtx
      = "" ∧
    pyContainsSub
      (renderString cexRenderer (String.mk (varBlock ['n', 'a', 'm', 'e']))
        cexCtx)
      "[MISSING:name]" = false := by
  constructor
  · decide
  · decide

theorem lookupField_setField (fields : List (String × JValue)) (key : String)
    (v : JValue) : lookupField (setField fields key v) key = some v := by
  induction fields with
  | nil => simp [setField, lookupField]
  | cons p rest ih =>
    obtain ⟨k, w⟩ := p
    by_cases hk : k = key
    · subst hk
      simp [setField, lookupField]
    · simp [setField, lookupField, hk, ih]

theorem getNested_setNested :
    ∀ (parts : List String) (fields out : List (String × JValue))
      (value : JValue),
      setNestedVal fields parts value = some out →
      getNestedVal (JValue.obj out) parts = some value := by
  intro parts
  induction parts with
  | nil =>
    intro fields out value h
    simp [setNestedVal] at h
  | cons p ps ih =>
    intro fields out value h
    cases ps with
    | nil =>
      simp [setNestedVal] at h
      subst h
      simp [getNestedVal, lookupField_setField]
    | cons q qs =>
      unfold setNestedVal at h
      rcases hlook : lookupField fields p with _ | c <;> rw [hlook] at h
      · simp at h
        obtain ⟨cf2, hset, hout⟩ := h
        subst hout
        simp only [getNestedVal, lookupField_setField]
        exact ih [] cf2 value hset
      · cases c with
        | obj cf =>
          simp at h
          obtain ⟨cf2, hset, hout⟩ := h
          subst hout
          simp only [getNestedVal, lookupField_setField]
          exact ih cf cf2 value hset
        | null => exact Option.noConfusion h
        | bool b => exact Option.noConfusion h
        | int n => exact Option.noConfusion h
        | str s => exact Option.noConfusion h
        | arr items => exact Option.noConfusion h

theorem renderArrayItems_length (r : Renderer) (marker : ArrayMarker)
    (base : ConversionContext) (N : Nat) :
    ∀ (i : Nat) (items : List JValue),
      (renderArrayItems r marker base N i items).length = items.length := by
  intro i items
  induction items generalizing i with
  | nil => rfl
  | cons it rest ih => simp [renderArrayItems, ih]

theorem renderArrayItems_get (r : Renderer) (marker : ArrayMarker)
    (base : ConversionContext) (N : Nat) :
    ∀ (items : List JValue) (start j : Nat),
      (renderArrayItems r marker base N start items).get? j =
        (items.get? j).map (fun it =>
          (renderDict r marker.template_item
            (elementContext r marker base N (start + j) it)).1) := by
  intro items
  induction items with
  | nil =>
    intro start j
    simp [renderArrayItems]
  | cons it rest ih =>
    intro start j
    cases j with
    | zero => simp [renderArrayItems]
    | succ m =>
      have harith : start + 1 + m = start + (m + 1) := by omega
      simp only [renderArrayItems, List.get?_cons_succ, ih (start + 1) m,
        harith]

theorem postInit_preserves (c : ConversionContext) (gts gci : String) :
    (postInit c gts gci).array_index = c.array_index ∧
    (postInit c gts gci).array_total = c.array_total ∧
    (postInit c gts gci).render_depth = c.render_depth ∧
    (postInit c gts gci).parent_path = c.parent_path := by
  unfold postInit
  simp only [apply_ite ConversionContext.array_index,
    apply_ite ConversionContext.array_total,
    apply_ite ConversionContext.render_depth,
    apply_ite ConversionContext.parent_path, ite_self]
  rcases hci : c.array_index with _ | i2 <;>
    rcases hct : c.array_total with _ | n2 <;>
      simp [apply_ite ConversionContext.array_index,
        apply_ite ConversionContext.array_total,
        apply_ite ConversionContext.render_depth,
        apply_ite ConversionContext.parent_path, ite_self, hci, hct]

theorem postInit_isLast (c : ConversionContext) (gts gci : String)
    (i n : Int) (hi : c.array_index = some i) (hn : c.array_total = some n) :
    (postInit c gts gci).is_last_item = decide (i = n - 1) := by
  unfold postInit
  simp only [apply_ite ConversionContext.array_index,
    apply_ite ConversionContext.array_total, ite_self]
  rw [hi, hn]

theorem elementContext_fields (r : Renderer) (marker : ArrayMarker)
    (base : ConversionContext) (N i : Nat) (item : JValue) :
    (elementContext r marker base N i item).array_index = some (i : Int) ∧
    (elementContext r marker base N i item).array_total = some (N : Int) ∧
    (elementContext r marker base N i item).render_depth
      = base.render_depth + 1 ∧
    (elementContext r marker base N i item).parent_path = base.current_path ∧
    (elementContext r marker base N i item).is_last_item
      = decide ((i : Int) = (N : Int) - 1) := by
  refine ⟨?_, ?_, ?_, ?_, ?_⟩
  · exact ((postInit_preserves _ _ _).1).trans rfl
  · exact ((postInit_preserves _ _ _).2.1).trans rfl
  · exact ((postInit_preserves _ _ _).2.2.1).trans rfl
  · exact ((postInit_preserves _ _ _).2.2.2).trans rfl
  · exact postInit_isLast _ _ _ (i : Int) (N : Int) rfl rfl

/-- C2: for a target template carrying a dynamic array marker whose
`field_path` resolves in the source data to a list of N elements, a
successful `_render_dynamic_array` pass writes exactly N output items at the
marker's path — the j-th being the marker's item template rendered under the
child context built for element j — and the child `ConversionContext` built
for element i has `array_index = i`, `array_total = N`,
`render_depth = parent render_depth + 1`,
`parent_path = parent current_path` and `is_last_item = (i == N-1)`. -/
theorem renderDynamicArray_array_contexts
    (r : Renderer) (result : List (String × JValue)) (marker : ArrayMarker)
    (base : ConversionContext) (items : List JValue)
    (result2 : List (String × JValue))
    (hres : getNestedVal (JValue.obj base.source_json)
        (pySplit marker.field_path '.') = some (JValue.arr items))
    (hok : renderDynamicArray r result marker base = Except.ok result2) :
    (∃ rendered : List (List (String × JValue)),
      getNestedVal (JValue.obj result2) (pySplit marker.field_path '.')
          = some (JValue.arr (rendered.map JValue.obj)) ∧
      rendered.length = items.length ∧
      ∀ j : Nat, rendered.get? j = (items.get? j).map (fun it =>
        (renderDict r marker.template_item
          (elementContext r marker base items.length j it)).1)) ∧
    ∀ (i : Nat) (item : JValue),
      (elementContext r marker base items.length i item).array_index
          = some (i : Int) ∧
      (elementContext r marker base items.length i item).array_total
          = some (items.length : Int) ∧
      (elementContext r marker base items.length i item).render_depth
          = base.render_depth + 1 ∧
      (elementContext r marker base items.length i item).parent_path
          = base.current_path ∧
      (elementContext r marker base items.length i item).is_last_item
          = decide ((i : Int) = (items.length : Int) - 1) := by
  constructor
  · unfold renderDynamicArray at hok
    simp only [] at hok
    rw [hres] at hok
    simp at hok
    split at hok
    · rename_i result2' heq
      injection hok with h2
      subst h2
      refine ⟨renderArrayItems r marker base items.length 0 items,
        getNested_setNested _ _ _ _ heq,
        renderArrayItems_length r marker base items.length 0 items, ?_⟩
      intro j
      have h := renderArrayItems_get r marker base items.length items 0 j
      simpa using h
    · exact Except.noConfusion hok
  · intro i item
    exact elementContext_fields r marker base items.length i item

theorem renderDynamicArray_array_contexts_witness :
    (∃ rendered : List (List (String × JValue)),
      getNestedVal (JValue.obj [("data", JValue.arr [JValue.obj [], JValue.obj []])])
          (pySplit c2Marker.field_path '.')
          = some (JValue.arr (rendered.map JValue.obj)) ∧
      rendered.length = [JValue.str "x", JValue.str "y"].length ∧
      ∀ j : Nat, rendered.get? j =
        (([JValue.str "x", JValue.str "y"] : List JValue).get? j).map (fun it =>
          (renderDict cexRenderer c2Marker.template_item
            (elementContext cexRenderer c2Marker c2Base
              ([JValue.str "x", JValue.str "y"] : List JValue).length j it)).1)) ∧
    ∀ (i : Nat) (item : JValue),
      (elementContext cexRenderer c2Marker c2Base
          ([JValue.str "x", JValue.str "y"] : List JValue).length i item).array_index
          = some (i : Int) ∧
      (elementContext cexRenderer c2Marker c2Base
          ([JValue.str "x", JValue.str "y"] : List JValue).length i item).array_total
          = some (([JValue.str "x", JValue.str "y"] : List JValue).length : Int) ∧
      (elementContext cexRenderer c2Marker c2Base
          ([JValue.str "x", JValue.str "y"] : List JValue).length i item).render_depth
          = c2Base.render_depth + 1 ∧
      (elementContext cexRenderer c2Marker c2Base
          ([JValue.str "x", JValue.str "y"] : List JValue).length i item).parent_path
          = c2Base.current_path ∧
      (elementContext cexRenderer c2Marker c2Base
          ([JValue.str "x", JValue.str "y"] : List JValue).length i item).is_last_item
          = decide ((i : Int) = (([JValue.str "x", JValue.str "y"] : List JValue).length : Int) - 1) :=
  renderDynamicArray_array_contexts cexRenderer [] c2Marker c2Base
    [JValue.str "x", JValue.str "y"]
    [("data", JValue.arr [JValue.obj [], JValue.obj []])]
    rfl
    (by simp [renderDynamicArray, renderArrayItems, renderDict, setNestedVal,
      setField, getNestedVal, lookupField, pySplit, pySplitChars,
      findArrayDataHeuristic, c2Marker, c2Base, cexRenderer])

end ProtoConv
